import Mathlib

/-!
Verification development for the LevitechDemo grounded answering pipeline.

The Python services under `LevitechDemo/services` are shallowly embedded as
executable Lean definitions:

* machine floats become `ℚ` (all score arithmetic in the source is exact
  ratio arithmetic, so this is faithful);
* `str` methods (`strip`, `lower`, `split`, `in`) and the two citation
  regexes are implemented directly over `List Char`;
* external effects (HTTP GET + BeautifulSoup extraction, SHA-256, clock,
  the LLM) are oracle parameters, and filesystem traffic of the fetcher and
  snapshot cache is recorded in an explicit effect trace;
* the on-disk snapshot cache and per-case document index are association
  lists keyed the way the directory layout keys them.
-/

namespace AIArchitect

/-! ### Text primitives: models of Python `str` methods -/

/-- Model of Python `str.lower` (ASCII-faithful). -/
def strLower (s : String) : String := ⟨s.data.map Char.toLower⟩

/-- Characters counted as whitespace by Python `\s` / `str.strip`. -/
def wsChar (c : Char) : Bool := c.isWhitespace

/-- Model of Python `str.strip` on a character list. -/
def stripChars (l : List Char) : List Char :=
  ((l.dropWhile wsChar).reverse.dropWhile wsChar).reverse

/-- Model of Python `str.strip`. -/
def strStrip (s : String) : String := ⟨stripChars s.data⟩

/-- Model of Python `str.endswith`. -/
def strEndsWith (s suffix : String) : Bool := suffix.data.isSuffixOf s.data

/-- Model of Python `sub in s` (substring containment). -/
def containsSub (hay needle : List Char) : Bool :=
  match hay with
  | [] => needle.isEmpty
  | _ :: t => needle.isPrefixOf hay || containsSub t needle

/-- Accumulator loop for whitespace-splitting; `acc` holds the current word
reversed. -/
def wordsGo : List Char → List Char → List String
  | acc, [] => if acc.isEmpty then [] else [⟨acc.reverse⟩]
  | acc, c :: cs =>
    if wsChar c then
      if acc.isEmpty then wordsGo [] cs
      else ⟨acc.reverse⟩ :: wordsGo [] cs
    else wordsGo (c :: acc) cs

/-- Model of Python `str.split()` with no argument: split on whitespace runs,
dropping empty pieces. -/
def pySplitWords (s : String) : List String := wordsGo [] s.data

/-- One step of collapsing whitespace runs; `prevWs` records whether the
previous character was whitespace (already replaced by one space). -/
def collapseWsGo : Bool → List Char → List Char
  | _, [] => []
  | prevWs, c :: rest =>
    if wsChar c then
      if prevWs then collapseWsGo true rest
      else ' ' :: collapseWsGo true rest
    else c :: collapseWsGo false rest

/-- Accumulator loop extracting maximal runs of word characters
(`re.findall` over word runs); `acc` holds the current run reversed. -/
def tokensGo : List Char → List Char → List String
  | acc, [] => if acc.isEmpty then [] else [⟨acc.reverse⟩]
  | acc, c :: cs =>
    if c.isAlphanum || c == '_' then tokensGo (c :: acc) cs
    else if acc.isEmpty then tokensGo [] cs
    else ⟨acc.reverse⟩ :: tokensGo [] cs

/-- The characters after the first occurrence of `pat`, if any. -/
def afterFirst (pat : List Char) : List Char → Option (List Char)
  | [] => if pat.isEmpty then some [] else none
  | c :: cs =>
    if pat.isPrefixOf (c :: cs) then some ((c :: cs).drop pat.length)
    else afterFirst pat cs

/-- Decimal digits to a natural number, as Python `int` on a digit string. -/
def natOfDigits (l : List Char) : Nat :=
  l.foldl (fun n c => n * 10 + (c.toNat - ('0').toNat)) 0

/-- Generic association-list lookup keyed by strings (models Python `dict`
lookups; the dicts in the source preserve insertion order, as lists do). -/
def lookupStr {α : Type} (l : List (String × α)) (k : String) : Option α :=
  (l.find? (fun kv => kv.1 == k)).map (fun kv => kv.2)

/-! ### `config.py` constants -/

/-- config.WHITELIST_DOMAINS. -/
def WHITELIST_DOMAINS : List String := [("acas.org.uk"), ("gov.uk"), ("citizensadvice.org.uk")]

/-- config.HYBRID_SEARCH_TOP_K. -/
def HYBRID_SEARCH_TOP_K : Nat := 10

/-- config.MAX_CHUNKS_PER_DOC. -/
def MAX_CHUNKS_PER_DOC : Nat := 3

/-- config.DEDUPE_SIMILARITY_THRESHOLD (the float 0.9 as an exact rational). -/
def DEDUPE_SIMILARITY_THRESHOLD : ℚ := 9/10

/-- config.MAX_CITATION_RETRIES. -/
def MAX_CITATION_RETRIES : Nat := 2

/-! ### URL host extraction and the whitelist check
(`legal_retriever.is_domain_whitelisted`) -/

/-- Model of `urllib.parse.urlparse(url).netloc`: strip a leading
`scheme:` (a letter followed by letters, digits, `+`, `-`, `.`); the netloc
is present only when the remainder starts with `//`, and runs up to the next
`/`, `?` or `#`. -/
def urlNetloc (url : String) : String :=
  let schemePart := url.data.takeWhile
    (fun c => c.isAlphanum || c == '+' || c == '-' || c == '.')
  let afterScheme :=
    match schemePart, url.data.drop schemePart.length with
    | c :: _, ':' :: rest => if c.isAlpha then rest else url.data
    | _, _ => url.data
  if (("//").data).isPrefixOf afterScheme then
    ⟨(afterScheme.drop 2).takeWhile
      (fun c => !(c == '/') && !(c == '?') && !(c == '#'))⟩
  else ⟨[]⟩

/-- legal_retriever.is_domain_whitelisted: the lowercased host must equal a
whitelist entry or end with `"." + entry`. -/
def is_domain_whitelisted (url : String) : Bool :=
  let domain := strLower (urlNetloc url)
  WHITELIST_DOMAINS.any (fun allowed =>
    domain == allowed || strEndsWith domain (("." ) ++ allowed))

/-! ### `legal_cache_service`: snapshot cache -/

/-- The persisted `meta.json` of one snapshot. -/
structure SourceMeta where
  id : String
  url : String
  domain : String
  title : String
  content_hash : String
  fetched_at : Nat
deriving DecidableEq, Repr

/-- One cache directory `{domain}/{url-hash}/` holding `meta.json`,
`source.txt`, `source.html`. -/
structure CacheEntry where
  meta : SourceMeta
  text : String
  html : String
deriving DecidableEq, Repr

/-- A cache directory path `(domain, url-hash)`. -/
abbrev CachePath := String × String

/-- The snapshot cache: association list from cache path to entry, in
creation order (models the `legal_cache` directory tree). -/
abbrev Cache := List (CachePath × CacheEntry)

/-- models/schemas.LegalSource. `fetched_at` is an abstract clock value. -/
structure LegalSource where
  id : String
  url : String
  domain : String
  title : String := ("")
  excerpt : String := ("")
  text : String := ("")
  html : String := ("")
  content_hash : String := ("")
  fetched_at : Nat := 0
deriving DecidableEq, Repr

/-- legal_cache_service._get_domain: `urlparse(url).netloc` (not lowercased). -/
def get_domain (url : String) : String := urlNetloc url

/-- legal_cache_service._get_cache_path for a URL, given the URL-hash
function (`_url_to_hash`, SHA-256 truncation, is an oracle parameter). -/
def get_cache_path (urlHash : String → String) (url : String) : CachePath :=
  (get_domain url, urlHash url)

/-- Lookup of a cache directory by exact path. -/
def cacheLookup (c : Cache) (p : CachePath) : Option CacheEntry :=
  (c.find? (fun kv => kv.1 == p)).map (fun kv => kv.2)

/-- Write a cache directory: overwrite the entry at this path if it exists,
otherwise create it. -/
def cacheInsert (c : Cache) (p : CachePath) (e : CacheEntry) : Cache :=
  if c.any (fun kv => kv.1 == p) then
    c.map (fun kv => if kv.1 == p then (p, e) else kv)
  else c ++ [(p, e)]

/-- The excerpt computed by `store_source` and `_load_source_from_path`:
`text[:500].strip()`, with `"..."` appended when the text is longer than
500 characters. -/
def make_excerpt (text : String) : String :=
  let e := strStrip ⟨text.data.take 500⟩
  if text.data.length > 500 then e ++ ("...") else e

/-- Filesystem / network effects of the fetcher and the snapshot cache. -/
inductive Eff where
  | cacheRead (p : CachePath)
  | networkGet (url : String)
  | mkdirp (p : CachePath)
  | fileWrite (p : CachePath) (name : String)
  | fileRename (p : CachePath) (src dst : String)
deriving DecidableEq, Repr

/-- legal_cache_service.store_source: write `source.html`, `source.txt` and
`meta.json` under the cache path (each with a direct `open(..., "w")`) and
return the `LegalSource`. `urlHash` models `_url_to_hash`, `contentHash`
models SHA-256 over the text, `now` models `datetime.utcnow()`. -/
def store_source (urlHash : String → String) (contentHash : String → String)
    (now : Nat) (cache : Cache) (url html text title : String) :
    LegalSource × Cache × List Eff :=
  let domain := get_domain url
  let source_id := urlHash url
  let c_hash := contentHash text
  let p := get_cache_path urlHash url
  let meta : SourceMeta :=
    { id := source_id, url := url, domain := domain, title := title,
      content_hash := c_hash, fetched_at := now }
  let cache' := cacheInsert cache p { meta := meta, text := text, html := html }
  let effs : List Eff :=
    [Eff.mkdirp p, Eff.fileWrite p ("source.html"),
     Eff.fileWrite p ("source.txt"), Eff.fileWrite p ("meta.json")]
  ({ id := source_id, url := url, domain := domain, title := title,
     excerpt := make_excerpt text, text := text, html := html,
     content_hash := c_hash, fetched_at := now }, cache', effs)

/-- legal_cache_service._load_source_from_path: rebuild a `LegalSource` from
the persisted files (the excerpt is recomputed from the text). The model
cache only holds well-formed entries, so the `json.JSONDecodeError` branch
that returns `None` cannot arise. -/
def load_source_from_path (e : CacheEntry) : LegalSource :=
  { id := e.meta.id, url := e.meta.url, domain := e.meta.domain,
    title := e.meta.title, excerpt := make_excerpt e.text, text := e.text,
    html := e.html, content_hash := e.meta.content_hash,
    fetched_at := e.meta.fetched_at }

/-- legal_cache_service.get_source: scan every domain directory for a
subdirectory named by the source id. -/
def get_source (cache : Cache) (source_id : String) : Option LegalSource :=
  ((cache.find? (fun kv => kv.1.2 == source_id)).map (fun kv => kv.2)).map
    load_source_from_path

/-- legal_cache_service.get_source_by_url: load the entry at the path derived
from the URL. -/
def get_source_by_url (urlHash : String → String) (cache : Cache)
    (url : String) : Option LegalSource :=
  (cacheLookup cache (get_cache_path urlHash url)).map load_source_from_path

/-! ### `legal_retriever.fetch_legal_source` -/

/-- Terminal outcomes of a fetch: the two exceptions, or a snapshot. -/
inductive FetchOutcome where
  | domainNotAllowed
  | fetchError
  | ok (s : LegalSource)
deriving DecidableEq, Repr

/-- Result of a fetch: outcome, resulting cache state, and the effect trace
in program order. -/
structure FetchResult where
  outcome : FetchOutcome
  cache : Cache
  trace : List Eff
deriving DecidableEq, Repr

/-- legal_retriever.fetch_legal_source. The whitelist check runs first; on a
miss (or `force_refresh`) the `net` oracle models `requests.get` plus the
BeautifulSoup title/text extraction, returning `none` for a
`requests.RequestException` and otherwise `(html, title, text)`. -/
def fetch_legal_source (urlHash : String → String)
    (contentHash : String → String) (now : Nat)
    (net : String → Option (String × String × String))
    (cache : Cache) (url : String) (force_refresh : Bool) : FetchResult :=
  if !(is_domain_whitelisted url) then
    { outcome := FetchOutcome.domainNotAllowed, cache := cache, trace := [] }
  else
    let p := get_cache_path urlHash url
    let cached : Option LegalSource :=
      if force_refresh then none else get_source_by_url urlHash cache url
    let readTrace : List Eff := if force_refresh then [] else [Eff.cacheRead p]
    match cached with
    | some s =>
      { outcome := FetchOutcome.ok s, cache := cache, trace := readTrace }
    | none =>
      match net url with
      | none =>
        { outcome := FetchOutcome.fetchError, cache := cache,
          trace := readTrace ++ [Eff.networkGet url] }
      | some (html, title, text) =>
        let out := store_source urlHash contentHash now cache url html text title
        { outcome := FetchOutcome.ok out.1, cache := out.2.1,
          trace := readTrace ++ [Eff.networkGet url] ++ out.2.2 }

/-! ### `citation_validator` -/

/-- models/schemas.Citation. -/
structure Citation where
  id : String
  source_type : String
  url : Option String := none
  domain : Option String := none
  file_name : Option String := none
  page_num : Option Nat := none
  excerpt : String
deriving DecidableEq, Repr

/-- citation_validator._normalize_whitespace:
`re.sub(r'\s+', ' ', text.strip().lower())`. -/
def normalize_whitespace (s : String) : String :=
  ⟨collapseWsGo false ((stripChars s.data).map Char.toLower)⟩

/-- The positional word-match rate of the source window of length
`ew.length` starting at `i` against the excerpt words `ew`
(`matches / window_size` in `_fuzzy_excerpt_match`). -/
def windowMatchRate (ew sw : List String) (i : Nat) : ℚ :=
  (((ew.zip ((sw.drop i).take ew.length)).countP
      (fun p => p.1 == p.2) : ℚ)) / (ew.length : ℚ)

/-- citation_validator._fuzzy_excerpt_match with the default threshold 0.8
(= 4/5). Python `range(len(source_words) - window_size + 1)` is empty when
the bound is ≤ 0, which matches truncated `Nat` subtraction in
`source_words.length + 1 - window_size`. -/
def fuzzy_excerpt_match (excerpt source_text : String) : Bool :=
  let excerpt_words := pySplitWords (normalize_whitespace excerpt)
  let source_words := pySplitWords (normalize_whitespace source_text)
  if excerpt_words.length < 3 then false
  else
    let window_size := excerpt_words.length
    (List.range (source_words.length + 1 - window_size)).any (fun i =>
      decide ((4 : ℚ)/5 ≤ windowMatchRate excerpt_words source_words i))

/-- citation_validator.validate_legal_citation: the four checks, in order. -/
def validate_legal_citation (cache : Cache) (c : Citation) : Bool × String :=
  match get_source cache c.id with
  | none => (false, ("Unknown citation ID: ") ++ c.id)
  | some source =>
    if (match c.url with
        | some u => !(u == ("")) && !(u == source.url)
        | none => false) then
      (false, ("URL mismatch: cited '") ++ (c.url.getD ("")) ++
        ("' but source has '") ++ source.url ++ ("'"))
    else
      let domain := strLower (urlNetloc source.url)
      if !(WHITELIST_DOMAINS.any (fun d =>
            domain == d || strEndsWith domain (("." ) ++ d))) then
        (false, ("Domain not whitelisted: ") ++ domain)
      else if c.excerpt == ("") then (false, ("Citation has no excerpt"))
      else
        if containsSub (normalize_whitespace source.text).data
            (normalize_whitespace c.excerpt).data then (true, ("Valid"))
        else if fuzzy_excerpt_match c.excerpt source.text then (true, ("Valid"))
        else (false, ("Excerpt not found in source text"))

/-! ### `document_index_service` -/

/-- One record of `document_index.json`'s `chunks` map (the provenance
fields the validator path reads). -/
structure ChunkMeta where
  file_name : String
  page_num : Option Nat := none
  para_idx : Option Nat := none
deriving DecidableEq, Repr

/-- A case's persisted index: `document_index.json`'s `documents` map
(file name to chunk-id list) and `chunks` map, plus the
`raw_text/<chunk_id>.txt` files. -/
structure CaseIndex where
  documents : List (String × List String)
  chunks : List (String × ChunkMeta)
  raw_text : List (String × String)
deriving DecidableEq, Repr

/-- document_index_service.get_chunk_text: read `raw_text/<chunk_id>.txt`. -/
def get_chunk_text (idx : CaseIndex) (chunk_id : String) : Option String :=
  lookupStr idx.raw_text chunk_id

/-- document_index_service.get_raw_text: concatenate the texts of the file's
chunks, optionally keeping only chunks whose recorded page equals
`page_num`; empty chunk texts are dropped (`if text:`), and an empty
selection yields `None`. -/
def get_raw_text (idx : CaseIndex) (file_name : String)
    (page_num : Option Nat) : Option String :=
  match lookupStr idx.documents file_name with
  | none => none
  | some chunk_ids =>
    let texts := chunk_ids.filterMap (fun cid =>
      let chunkPage : Option Nat := (lookupStr idx.chunks cid).bind
        (fun m => m.page_num)
      if page_num.isSome && !(chunkPage == page_num) then none
      else
        match get_chunk_text idx cid with
        | some t => if t == ("") then none else some t
        | none => none)
    if texts.isEmpty then none
    else some (String.join (texts.intersperse ("\n\n")))

/-- The resolution step of `validate_client_citation` (its lines building
`chunk_text`): by chunk id first when the id is truthy, then by
(file, page?). -/
def resolveChunkText (idx : CaseIndex) (c : Citation) : Option String :=
  match (if !(c.id == ("")) then get_chunk_text idx c.id else none) with
  | some t => some t
  | none => get_raw_text idx (c.file_name.getD ("")) c.page_num

/-- citation_validator.validate_client_citation. -/
def validate_client_citation (idx : CaseIndex) (c : Citation) : Bool × String :=
  if (match c.file_name with
      | none => true
      | some f => f == ("")) then
    (false, ("Client citation has no file_name"))
  else
    let fn := c.file_name.getD ("")
    match resolveChunkText idx c with
    | none => (false, ("Source document not found: ") ++ fn)
    | some t =>
      if c.excerpt == ("") then (false, ("Citation has no excerpt"))
      else
        if containsSub (normalize_whitespace t).data
            (normalize_whitespace c.excerpt).data then (true, ("Valid"))
        else if fuzzy_excerpt_match c.excerpt t then (true, ("Valid"))
        else (false, ("Excerpt not found in ") ++ fn)

/-- citation_validator.validate_citation: dispatch on source type. -/
def validate_citation (idx : CaseIndex) (cache : Cache) (c : Citation) :
    Bool × String :=
  if c.source_type == ("legal") then validate_legal_citation cache c
  else if c.source_type == ("client") then validate_client_citation idx c
  else (false, ("Unknown source type: ") ++ c.source_type)

/-- citation_validator.all_citations_valid: collect an error line per
invalid citation (Python renders a missing locator as the string `None`). -/
def all_citations_valid (idx : CaseIndex) (cache : Cache)
    (citations : List Citation) : Bool × List String :=
  let errors := citations.filterMap (fun c =>
    let r := validate_citation idx cache c
    if r.1 then none
    else
      let source_desc :=
        if c.source_type == ("legal") then (c.url.getD ("None"))
        else (c.file_name.getD ("None"))
      some (source_desc ++ (": ") ++ r.2))
  (errors.isEmpty, errors)

/-! ### `bm25_service` tokenization and deduplication, `hybrid_search` -/

/-- models/schemas.ChunkProvenance. -/
structure ChunkProvenance where
  chunk_id : String
  file_name : String
  page_num : Option Nat := none
  para_idx : Option Nat := none
  char_start : Nat := 0
  char_end : Nat := 0
  ocr : Bool := false
deriving DecidableEq, Repr

/-- models/schemas.SearchResult (the float score as an exact rational). -/
structure SearchResult where
  chunk_id : String
  text : String
  score : ℚ
  provenance : ChunkProvenance
  source_type : String := ("client")
deriving DecidableEq, Repr

/-- bm25_service._tokenize: lowercase, then the maximal word-character runs
(`re.findall` of word runs over the lowercased text). -/
def tokenize (s : String) : List String := tokensGo [] (s.data.map Char.toLower)

/-- Jaccard similarity over token sets, with the source's `0` fallback for
an empty union. -/
def jaccard (a b : Finset String) : ℚ :=
  if (a ∪ b).card = 0 then 0 else ((a ∩ b).card : ℚ) / ((a ∪ b).card : ℚ)

/-- The inner loop of `dedupe_results`: is `r` a near-duplicate of an
already-kept result? Pairs where either token set is empty are skipped
(the `continue` in the source). -/
def isDuplicateOf (threshold : ℚ) (deduped : List SearchResult)
    (r : SearchResult) : Bool :=
  deduped.any (fun existing =>
    let result_tokens := (tokenize r.text).toFinset
    let existing_tokens := (tokenize existing.text).toFinset
    if result_tokens = ∅ ∨ existing_tokens = ∅ then false
    else decide (threshold ≤ jaccard result_tokens existing_tokens))

/-- The walk of `dedupe_results` over the tail, appending non-duplicates. -/
def dedupeGo (threshold : ℚ) :
    List SearchResult → List SearchResult → List SearchResult
  | deduped, [] => deduped
  | deduped, r :: rest =>
    if isDuplicateOf threshold deduped r then dedupeGo threshold deduped rest
    else dedupeGo threshold (deduped ++ [r]) rest

/-- bm25_service.dedupe_results with an explicit threshold (the source
defaults it to `config.DEDUPE_SIMILARITY_THRESHOLD`). -/
def dedupe_results (results : List SearchResult) (threshold : ℚ) :
    List SearchResult :=
  match results with
  | [] => []
  | [r] => [r]
  | r :: rest => dedupeGo threshold [r] rest

/-- Python `min(scores)` for a result list (0 for `[]`, unused there). -/
def minScoreOf : List SearchResult → ℚ
  | [] => 0
  | r :: rs => ((r :: rs).map (fun x => x.score)).foldl min r.score

/-- Python `max(scores)` for a result list (0 for `[]`, unused there). -/
def maxScoreOf : List SearchResult → ℚ
  | [] => 0
  | r :: rs => ((r :: rs).map (fun x => x.score)).foldl max r.score

/-- hybrid_search._normalize_scores: min-max into [0,1]; when the range is
zero every score collapses to 1.0 if the max is positive, else 0.0 (the
source's locals `min_score`, `max_score`, `score_range` are written out). -/
def normalize_scores (results : List SearchResult) : List SearchResult :=
  match results with
  | [] => []
  | r :: rs =>
    if maxScoreOf (r :: rs) - minScoreOf (r :: rs) = 0 then
      (r :: rs).map (fun x =>
        { x with score := if 0 < maxScoreOf (r :: rs) then 1 else 0 })
    else
      (r :: rs).map (fun x =>
        { x with score := (x.score - minScoreOf (r :: rs)) /
            (maxScoreOf (r :: rs) - minScoreOf (r :: rs)) })

/-- One row of the `merged` / `chunk_scores` dicts in `hybrid_search.search`:
the first result object seen for a chunk id plus its two side scores. -/
structure MergedEntry where
  rep : SearchResult
  bm25 : ℚ
  vector : ℚ
deriving DecidableEq, Repr

/-- The BM25 half of the merge loop: create the row if the id is new, then
set its `bm25` score (a later duplicate id overwrites the score only). -/
def addBm25 (acc : List MergedEntry) (r : SearchResult) : List MergedEntry :=
  if acc.any (fun e => e.rep.chunk_id == r.chunk_id) then
    acc.map (fun e =>
      if e.rep.chunk_id == r.chunk_id then { e with bm25 := r.score } else e)
  else acc ++ [{ rep := r, bm25 := r.score, vector := 0 }]

/-- The vector half of the merge loop. -/
def addVector (acc : List MergedEntry) (r : SearchResult) : List MergedEntry :=
  if acc.any (fun e => e.rep.chunk_id == r.chunk_id) then
    acc.map (fun e =>
      if e.rep.chunk_id == r.chunk_id then { e with vector := r.score } else e)
  else acc ++ [{ rep := r, bm25 := 0, vector := r.score }]

/-- The two merge loops of `hybrid_search.search`, BM25 results first. -/
def mergeScores (bm vec : List SearchResult) : List MergedEntry :=
  vec.foldl addVector (bm.foldl addBm25 [])

/-- The fused-score construction of `hybrid_search.search`. -/
def fuseEntry (bm25_weight vector_weight : ℚ) (e : MergedEntry) : SearchResult :=
  { chunk_id := e.rep.chunk_id, text := e.rep.text,
    score := bm25_weight * e.bm25 + vector_weight * e.vector,
    provenance := e.rep.provenance, source_type := e.rep.source_type }

/-- Update of the `doc_counts` dict in `_apply_doc_cap`. -/
def updateCount (counts : List (String × Nat)) (k : String) (v : Nat) :
    List (String × Nat) :=
  if counts.any (fun kv => kv.1 == k) then
    counts.map (fun kv => if kv.1 == k then (kv.1, v) else kv)
  else counts ++ [(k, v)]

/-- The walk of `_apply_doc_cap` carrying the per-file counters (the
source's local `current` is written out). -/
def capGo (max_per_doc : Nat) :
    List SearchResult → List (String × Nat) → List SearchResult
  | [], _ => []
  | r :: rest, doc_counts =>
    if (lookupStr doc_counts r.provenance.file_name).getD 0 < max_per_doc then
      r :: capGo max_per_doc rest
        (updateCount doc_counts r.provenance.file_name
          ((lookupStr doc_counts r.provenance.file_name).getD 0 + 1))
    else capGo max_per_doc rest doc_counts

/-- hybrid_search._apply_doc_cap. -/
def apply_doc_cap (results : List SearchResult) (max_per_doc : Nat) :
    List SearchResult :=
  capGo max_per_doc results []

/-- The comparator of `fused_results.sort(key=score, reverse=True)`. -/
def scoreDescending (a b : SearchResult) : Bool := decide (b.score ≤ a.score)

/-- hybrid_search.search after the two index calls: the candidate lists
returned by `bm25_service.search_keywords` and `chroma_service.search_similar`
(functions of the case and query) are taken as inputs. `mergeSort` with
`scoreDescending` models Python's stable descending sort. -/
def search (bm25_results vector_results : List SearchResult) (top_k : Nat)
    (bm25_weight vector_weight : ℚ) : List SearchResult :=
  let bmN := normalize_scores bm25_results
  let vecN := normalize_scores vector_results
  let fused_results := (mergeScores bmN vecN).map (fuseEntry bm25_weight vector_weight)
  let sorted := fused_results.mergeSort scoreDescending
  let capped := apply_doc_cap sorted MAX_CHUNKS_PER_DOC
  let deduped := dedupe_results capped DEDUPE_SIMILARITY_THRESHOLD
  deduped.take top_k

/-- The score stored for `chunk_id` in a result list, 0 when absent (the
`{"bm25": 0, "vector": 0}` initialisation of the merge). -/
def scoreOf (l : List SearchResult) (chunk_id : String) : ℚ :=
  ((l.find? (fun r => r.chunk_id == chunk_id)).map (fun r => r.score)).getD 0

/-! ### `answer_engine._parse_citations`: the two citation regexes

Client pattern (compiled with `re.IGNORECASE`):
  a literal `[Source:`, optional whitespace, a lazy non-empty group of
  characters other than `]` and `,`, an optional `, page <digits>` part,
  `]`, optional whitespace, and a quoted non-empty excerpt (straight or
  curly quotes).
Legal pattern (case-sensitive):
  a literal `[Source:`, optional whitespace, `http://` or `https://`
  followed by a non-empty run of characters other than `]`, then `]`,
  optional whitespace, and the same quoted excerpt.

The lazy group cannot contain `]` or `,` and its continuation must start
with one of them, so it deterministically captures the text up to the first
`]` or `,`; the greedy `\s*` before it keeps the leading whitespace out of
the group unless the whole region is whitespace, in which case backtracking
leaves exactly the last whitespace character in the group. The greedy
excerpt group is bounded by the closing quote, so it captures the maximal
run of non-quote characters. -/

/-- Straight or curly quote characters accepted around excerpts. -/
def quoteChar (c : Char) : Bool := c == '"' || c == '“' || c == '”'

/-- Case-insensitive literal match (pattern given lowercased); returns the
remaining input. -/
def matchLitCI : List Char → List Char → Option (List Char)
  | [], rest => some rest
  | _ :: _, [] => none
  | p :: ps, c :: cs => if c.toLower == p then matchLitCI ps cs else none

/-- Case-sensitive literal match; returns the remaining input. -/
def matchLit : List Char → List Char → Option (List Char)
  | [], rest => some rest
  | _ :: _, [] => none
  | p :: ps, c :: cs => if c == p then matchLit ps cs else none

/-- Match `\s*["“”]([^"“”]+)["“”]`; returns the excerpt group and the
remaining input. -/
def matchQuoted (l : List Char) : Option (String × List Char) :=
  match l.dropWhile wsChar with
  | [] => none
  | q :: r1 =>
    if quoteChar q then
      let content := r1.takeWhile (fun c => !(quoteChar c))
      if content.isEmpty then none
      else
        match r1.drop content.length with
        | q2 :: r2 => if quoteChar q2 then some (⟨content⟩, r2) else none
        | [] => none
    else none

/-- One attempted client-pattern match anchored at the head of the input;
on success returns (file group, page group, excerpt group, rest). -/
def clientMatchAt (l : List Char) :
    Option (String × Option Nat × String × List Char) :=
  match matchLitCI (("[source:").data) l with
  | none => none
  | some r1 =>
    let grp := r1.takeWhile (fun c => !(c == ']') && !(c == ','))
    let rest2 := r1.drop grp.length
    if grp.isEmpty then none
    else
      let g1core := grp.dropWhile wsChar
      let g1 : List Char := if g1core.isEmpty then [grp.getLastD ' '] else g1core
      match rest2 with
      | ']' :: r3 =>
        match matchQuoted r3 with
        | some (ex, rest) => some (⟨g1⟩, none, ex, rest)
        | none => none
      | ',' :: r3 =>
        match matchLitCI (("page").data) (r3.dropWhile wsChar) with
        | none => none
        | some r5 =>
          let r6 := r5.dropWhile wsChar
          let digits := r6.takeWhile Char.isDigit
          if digits.isEmpty then none
          else
            match r6.drop digits.length with
            | ']' :: r7 =>
              match matchQuoted r7 with
              | some (ex, rest) => some (⟨g1⟩, some (natOfDigits digits), ex, rest)
              | none => none
            | _ => none
      | _ => none

/-- One attempted legal-pattern match anchored at the head of the input;
on success returns (url group, excerpt group, rest). -/
def legalMatchAt (l : List Char) : Option (String × String × List Char) :=
  match matchLit (("[Source:").data) l with
  | none => none
  | some r1 =>
    let r2 := r1.dropWhile wsChar
    let scheme : Option (List Char × List Char) :=
      if (("https://").data).isPrefixOf r2 then some ((("https://").data), r2.drop 8)
      else if (("http://").data).isPrefixOf r2 then some ((("http://").data), r2.drop 7)
      else none
    match scheme with
    | none => none
    | some (sch, r3) =>
      let body := r3.takeWhile (fun c => !(c == ']'))
      if body.isEmpty then none
      else
        match r3.drop body.length with
        | ']' :: r4 =>
          match matchQuoted r4 with
          | some (ex, rest) => some (⟨sch ++ body⟩, ex, rest)
          | none => none
        | _ => none

/-- The left-to-right, non-overlapping scan of `re.finditer` for the client
pattern. Every step consumes at least one character (a successful match
consumes at least the `[Source:` literal), so fuel equal to the input
length never runs out. -/
def clientFindAllGo : Nat → List Char → List (String × Option Nat × String)
  | 0, _ => []
  | _, [] => []
  | fuel + 1, c :: cs =>
    match clientMatchAt (c :: cs) with
    | some (g1, pg, ex, rest) => (g1, pg, ex) :: clientFindAllGo fuel rest
    | none => clientFindAllGo fuel cs

/-- All client-pattern matches of the answer, in order. -/
def clientFindAll (s : String) : List (String × Option Nat × String) :=
  clientFindAllGo s.data.length s.data

/-- The `re.finditer` scan for the legal pattern. -/
def legalFindAllGo : Nat → List Char → List (String × String)
  | 0, _ => []
  | _, [] => []
  | fuel + 1, c :: cs =>
    match legalMatchAt (c :: cs) with
    | some (u, ex, rest) => (u, ex) :: legalFindAllGo fuel rest
    | none => legalFindAllGo fuel cs

/-- All legal-pattern matches of the answer, in order. -/
def legalFindAll (s : String) : List (String × String) :=
  legalFindAllGo s.data.length s.data

/-- answer_engine._parse_citations: client matches become client citations;
a legal match becomes a legal citation only when its URL equals the URL of
one of the snapshots handed to the LLM (first match wins, and a falsy
source id is also dropped). -/
def parse_citations (response_text : String)
    (legal_sources : List LegalSource) : List Citation :=
  let clientCits := (clientFindAll response_text).map (fun m =>
    let file_name := strStrip m.1
    let page_num := m.2.1
    let excerpt := strStrip m.2.2
    { id := file_name ++ ("_") ++ toString (page_num.getD 0),
      source_type := ("client"), file_name := some file_name,
      page_num := page_num, excerpt := excerpt : Citation })
  let legalCits := (legalFindAll response_text).filterMap (fun m =>
    let url := strStrip m.1
    let excerpt := strStrip m.2
    match legal_sources.find? (fun s => s.url == url) with
    | some s =>
      if s.id == ("") then none
      else some { id := s.id, source_type := ("legal"), url := some url,
                  excerpt := excerpt : Citation }
    | none => none)
  clientCits ++ legalCits

/-! ### `answer_engine.generate_answer`: the bounded validation loop -/

/-- The single error used when evidence exists but no citation was parsed. -/
def noCitationsError : String := ("No citations found despite available evidence.")

/-- The user-visible warning appended after the last failed attempt. -/
def warningSuffix : String := ("\n\n⚠️ Warning: Some citations could not be verified.")

/-- models/schemas.AnswerResponse, extended with `attempts`, the number of
LLM invocations the loop made (model instrumentation). -/
structure AnswerResponse where
  answer : String
  client_evidence : List SearchResult
  legal_sources : List LegalSource
  citations : List Citation
  citations_valid : Bool
  validation_errors : List String
  attempts : Nat
deriving DecidableEq, Repr

/-- The body of one loop iteration of `generate_answer`: parse, then either
the no-citations error or full validation. Returns
(all_valid, citations, errors). -/
def attemptOutcome (idx : CaseIndex) (cache : Cache)
    (legal_sources : List LegalSource) (evidence_present : Bool)
    (answer_text : String) : Bool × List Citation × List String :=
  let citations := parse_citations answer_text legal_sources
  if evidence_present && citations.isEmpty then
    (false, citations, [noCitationsError])
  else
    let v := all_citations_valid idx cache citations
    (v.1, citations, v.2)

/-- The `for attempt in range(MAX_CITATION_RETRIES + 1)` loop. `answers` is
the LLM oracle, indexed by attempt number (the source varies only the
prompt prefix between attempts). `remaining` counts the iterations still
allowed after the current one. -/
def answerLoop (idx : CaseIndex) (cache : Cache)
    (client_evidence : List SearchResult) (legal_sources : List LegalSource)
    (answers : Nat → String) (evidence_present : Bool) :
    Nat → Nat → AnswerResponse
  | attempt, remaining =>
    let answer_text := answers attempt
    let out := attemptOutcome idx cache legal_sources evidence_present answer_text
    if out.1 then
      { answer := answer_text, client_evidence := client_evidence,
        legal_sources := legal_sources, citations := out.2.1,
        citations_valid := true, validation_errors := [],
        attempts := attempt + 1 }
    else
      match remaining with
      | 0 =>
        { answer := answer_text ++ warningSuffix,
          client_evidence := client_evidence, legal_sources := legal_sources,
          citations := out.2.1, citations_valid := false,
          validation_errors := out.2.2, attempts := attempt + 1 }
      | r + 1 =>
        answerLoop idx cache client_evidence legal_sources answers
          evidence_present (attempt + 1) r

/-- answer_engine.generate_answer, phase B. Phase A's retrieval products
(`client_evidence` from hybrid search, `legal_sources` from the query
helper) are inputs; `evidence_present` is
`bool(client_evidence or legal_sources)`. -/
def generate_answer (idx : CaseIndex) (cache : Cache)
    (client_evidence : List SearchResult) (legal_sources : List LegalSource)
    (answers : Nat → String) : AnswerResponse :=
  let evidence_present := !client_evidence.isEmpty || !legal_sources.isEmpty
  answerLoop idx cache client_evidence legal_sources answers evidence_present
    0 MAX_CITATION_RETRIES

/-! ### Concrete instances used by witnesses and counterexamples -/

/-- A fixed URL-hash oracle for concrete runs. -/
def hashC1 : String → String := fun _ => ("h1")

/-- A cached snapshot's metadata for a whitelisted URL. -/
def metaC1 : SourceMeta :=
  { id := ("h1"), url := ("https://www.gov.uk/notice"), domain := ("www.gov.uk"),
    title := ("Notice"), content_hash := ("c"), fetched_at := 5 }

/-- The cache directory for `metaC1`. -/
def entryC1 : CacheEntry :=
  { meta := metaC1, text := ("Hello"), html := ("<p>") }

/-- A one-entry snapshot cache. -/
def cacheC1 : Cache := [(((("www.gov.uk")), (("h1"))), entryC1)]

/-- The snapshot loaded back from `entryC1`. -/
def srcC1 : LegalSource := load_source_from_path entryC1

/-- Network oracle for the double-fetch run: same page on every GET. -/
def netC9 : String → Option (String × String × String) :=
  fun _ => some ((("<html>x</html>")), (("T")), (("Body text")))

/-- The fetch of the C10 counterexample: the extracted text has surrounding
whitespace, so the stored excerpt is stripped and is not a prefix. -/
def fetchC10 : FetchResult :=
  fetch_legal_source (fun _ => ("h")) (fun _ => ("c")) 0
    (fun _ => some ((("<html>")), (("t")), (("  padded  ")))) []
    (("https://www.gov.uk/a")) false

/-- The snapshot `fetchC10` returns. -/
def srcC10 : LegalSource :=
  (store_source (fun _ => ("h")) (fun _ => ("c")) 0 []
    (("https://www.gov.uk/a")) (("<html>")) (("  padded  ")) (("t"))).1

/-- A cached snapshot whose text contains the witness excerpt. -/
def cacheC2 : Cache :=
  [(((("www.gov.uk")), (("id1"))),
    { meta := { id := ("id1"), url := ("https://www.gov.uk/a"),
                domain := ("www.gov.uk"), title := (""), content_hash := (""),
                fetched_at := 0 },
      text := ("Hello   World of law"), html := ("") })]

/-- A legal citation quoting `cacheC2`'s snapshot verbatim up to case and
whitespace. -/
def citC2 : Citation :=
  { id := ("id1"), source_type := ("legal"), excerpt := ("hello world") }

/-- An LLM answer holding one valid client marker and one legal marker whose
URL (which contains a comma) matches no handed snapshot. -/
def ansC3 : String :=
  ("A [Source: contract.pdf, page 2] \"hello world\" B [Source: https://www.gov.uk/x,y] \"quote text\" C")

/-- The snapshots handed to the LLM in the C3 runs. -/
def lsC3 : List LegalSource :=
  [{ id := ("L1"), url := ("https://www.gov.uk/good"), domain := ("www.gov.uk"),
     text := ("Good text here") }]

/-- The case index backing `ansC3`'s client citation. -/
def idxC3 : CaseIndex :=
  { documents := [((("contract.pdf")), [(("k1"))])],
    chunks := [((("k1")), { file_name := ("contract.pdf"), page_num := some 2 })],
    raw_text := [((("k1")), (("Hello world.")))] }

/-- An answer with one legal marker whose URL is a handed snapshot. -/
def ansC3b : String := ("[Source: https://www.gov.uk/good] \"good text\"")

/-- The legal citation `parse_citations` produces from `ansC3b`. -/
def citC3b : Citation :=
  { id := ("L1"), source_type := ("legal"),
    url := some (("https://www.gov.uk/good")), excerpt := ("good text") }

/-- The case index for the answer-engine runs: one document with one chunk. -/
def idxC4 : CaseIndex :=
  { documents := [((("brief.pdf")), [(("c4"))])],
    chunks := [((("c4")), { file_name := ("brief.pdf"), page_num := some 1 })],
    raw_text := [((("c4")), (("The key fact here.")))] }

/-- Legal sources present during the answer-engine runs (making evidence
available). -/
def lsC4 : List LegalSource :=
  [{ id := ("L4"), url := ("https://www.gov.uk/x"), domain := ("www.gov.uk"),
     text := ("irrelevant") }]

/-- An answer without any citation marker. -/
def ansNoCit : String := ("No sources.")

/-- An answer with one valid client citation against `idxC4`. -/
def ansGoodC4 : String := ("[Source: brief.pdf, page 1] \"key fact\"")

/-- LLM oracle failing on attempt 0 and succeeding on attempt 1. -/
def answersC4 : Nat → String :=
  fun i => if i == 0 then ansNoCit else ansGoodC4

/-- LLM oracle that never produces a citation. -/
def answersC5 : Nat → String := fun _ => ansNoCit

/-- The case index of the C6 runs: one chunk `c1` belonging to `a.pdf`. -/
def idxC6 : CaseIndex :=
  { documents := [((("a.pdf")), [(("c1"))])],
    chunks := [((("c1")), { file_name := ("a.pdf"), page_num := some 1 })],
    raw_text := [((("c1")), (("Hello world of law.")))] }

/-- A client citation whose chunk id resolves but whose file name names a
file that does not exist in the case. -/
def citC6 : Citation :=
  { id := ("c1"), source_type := ("client"), file_name := some (("b.pdf")),
    excerpt := ("hello world") }

/-- The same citation with the chunk's real file name. -/
def citC6b : Citation :=
  { id := ("c1"), source_type := ("client"), file_name := some (("a.pdf")),
    excerpt := ("hello world") }

/-- A BM25 candidate for the C8 witness. -/
def bmC8 : List SearchResult :=
  [{ chunk_id := ("x"), text := ("alpha"), score := 2,
     provenance := { chunk_id := ("x"), file_name := ("f") } }]

/-- A vector candidate for the C8 witness. -/
def vecC8 : List SearchResult :=
  [{ chunk_id := ("y"), text := ("beta"), score := 3,
     provenance := { chunk_id := ("y"), file_name := ("g") } }]

/-! ## Theorems -/

/-! ### Shared association-list lemmas -/

theorem find?_cacheInsert_overwrite (c : Cache) (p : CachePath) (e : CacheEntry)
    (h : c.any (fun kv => kv.1 == p) = true) :
    (c.map (fun kv => if kv.1 == p then (p, e) else kv)).find?
      (fun kv => kv.1 == p) = some (p, e) := by
  induction c with
  | nil => simp at h
  | cons kv rest ih =>
    simp only [List.any_cons, Bool.or_eq_true] at h
    by_cases hk : (kv.1 == p) = true
    · have hkeq : kv.1 = p := eq_of_beq hk
      simp [List.map_cons, List.find?_cons, hkeq]
    · have hkf : (kv.1 == p) = false := by simpa using hk
      have h2 : (rest.any fun kv => kv.1 == p) = true := by
        rcases h with h1 | h2
        · exact absurd h1 hk
        · exact h2
      simp only [List.map_cons, hkf, Bool.false_eq_true, if_false]
      rw [List.find?_cons_of_neg _ (by simp [hkf])]
      exact ih h2

theorem cacheLookup_cacheInsert_self (c : Cache) (p : CachePath) (e : CacheEntry) :
    cacheLookup (cacheInsert c p e) p = some e := by
  unfold cacheInsert cacheLookup
  by_cases h : c.any (fun kv => kv.1 == p) = true
  · rw [if_pos h, find?_cacheInsert_overwrite c p e h]
    rfl
  · rw [if_neg h, List.find?_append]
    have hnone : c.find? (fun kv => kv.1 == p) = none := by
      rw [List.find?_eq_none]
      intro x hx hpx
      exact h (List.any_eq_true.mpr ⟨x, hx, hpx⟩)
    simp [hnone, List.find?_cons]

/-! ### C1: the whitelist gate runs before any I/O; cache hits skip the
network -/

/-- C1: a URL whose host is not whitelisted makes `fetch_legal_source` fail
with `DomainNotAllowed` with an empty effect trace (so before any network
request or cache read), while a whitelisted URL with a cached snapshot and
`force_refresh = false` returns the cached snapshot with only a cache read
in the trace (no network request). -/
theorem fetch_domain_gate_and_cache_hit
    (urlHash contentHash : String → String) (now : Nat)
    (net : String → Option (String × String × String)) (cache : Cache)
    (u1 u2 : String) (force : Bool) (s : LegalSource)
    (h1 : is_domain_whitelisted u1 = false)
    (h2 : is_domain_whitelisted u2 = true)
    (h3 : get_source_by_url urlHash cache u2 = some s) :
    fetch_legal_source urlHash contentHash now net cache u1 force =
      { outcome := FetchOutcome.domainNotAllowed, cache := cache, trace := [] } ∧
    fetch_legal_source urlHash contentHash now net cache u2 false =
      { outcome := FetchOutcome.ok s, cache := cache,
        trace := [Eff.cacheRead (get_cache_path urlHash u2)] } := by
  constructor
  · unfold fetch_legal_source
    rw [h1]
    rfl
  · unfold fetch_legal_source
    rw [h2]
    simp only [Bool.not_true, Bool.false_eq_true, if_false, if_neg, h3]

/-- Witness for C1 at a concrete non-whitelisted URL and a concrete cached
whitelisted URL. -/
theorem fetch_domain_gate_and_cache_hit_witness :
    is_domain_whitelisted (("https://evil.example.com/page")) = false ∧
    is_domain_whitelisted (("https://www.gov.uk/notice")) = true ∧
    get_source_by_url hashC1 cacheC1 (("https://www.gov.uk/notice")) = some srcC1 ∧
    (fetch_legal_source hashC1 (fun _ => ("c")) 0 (fun _ => none) cacheC1
        (("https://evil.example.com/page")) false =
      { outcome := FetchOutcome.domainNotAllowed, cache := cacheC1, trace := [] } ∧
    fetch_legal_source hashC1 (fun _ => ("c")) 0 (fun _ => none) cacheC1
        (("https://www.gov.uk/notice")) false =
      { outcome := FetchOutcome.ok srcC1, cache := cacheC1,
        trace := [Eff.cacheRead (get_cache_path hashC1 (("https://www.gov.uk/notice")))] }) :=
  ⟨by decide, by decide, by decide,
    fetch_domain_gate_and_cache_hit hashC1 (fun _ => ("c")) 0 (fun _ => none)
      cacheC1 _ _ false srcC1 (by decide) (by decide) (by decide)⟩

/-! ### C9: a second fetch of the same URL is answered from the cache with
an identical snapshot -/

/-- C9: on a whitelisted URL missing from the cache, a successful fetch
stores a snapshot; fetching the same URL again without `force_refresh`
returns the identical snapshot (every field, including the fetch time),
leaves the cache unchanged, and performs only a cache read — no network
request — whatever the second call's clock or network oracle are. -/
theorem fetch_twice_cached_identical
    (urlHash contentHash : String → String) (now now2 : Nat)
    (net net2 : String → Option (String × String × String))
    (cache : Cache) (url html title text : String)
    (hwl : is_domain_whitelisted url = true)
    (hmiss : get_source_by_url urlHash cache url = none)
    (hnet : net url = some (html, title, text)) :
    ∃ s cache2,
      fetch_legal_source urlHash contentHash now net cache url false =
        { outcome := FetchOutcome.ok s, cache := cache2,
          trace := [Eff.cacheRead (get_cache_path urlHash url),
                    Eff.networkGet url,
                    Eff.mkdirp (get_cache_path urlHash url),
                    Eff.fileWrite (get_cache_path urlHash url) (("source.html")),
                    Eff.fileWrite (get_cache_path urlHash url) (("source.txt")),
                    Eff.fileWrite (get_cache_path urlHash url) (("meta.json"))] } ∧
      fetch_legal_source urlHash contentHash now2 net2 cache2 url false =
        { outcome := FetchOutcome.ok s, cache := cache2,
          trace := [Eff.cacheRead (get_cache_path urlHash url)] } := by
  refine ⟨(store_source urlHash contentHash now cache url html text title).1,
          (store_source urlHash contentHash now cache url html text title).2.1,
          ?_, ?_⟩
  · unfold fetch_legal_source
    rw [hwl]
    simp only [Bool.not_true, Bool.false_eq_true, if_false, if_neg, hmiss, hnet]
    rfl
  · unfold fetch_legal_source
    rw [hwl]
    have hhit : get_source_by_url urlHash
        (store_source urlHash contentHash now cache url html text title).2.1 url =
        some (store_source urlHash contentHash now cache url html text title).1 := by
      unfold store_source get_source_by_url
      rw [cacheLookup_cacheInsert_self]
      rfl
    simp only [Bool.not_true, Bool.false_eq_true, if_false, if_neg, hhit]

/-- Witness for C9: a concrete double fetch of an ACAS page. -/
theorem fetch_twice_cached_identical_witness :
    is_domain_whitelisted (("https://www.acas.org.uk/notice")) = true ∧
    (∃ s cache2,
      fetch_legal_source hashC1 (fun _ => ("ch")) 7 netC9 []
          (("https://www.acas.org.uk/notice")) false =
        { outcome := FetchOutcome.ok s, cache := cache2,
          trace := [Eff.cacheRead (get_cache_path hashC1 (("https://www.acas.org.uk/notice"))),
                    Eff.networkGet (("https://www.acas.org.uk/notice")),
                    Eff.mkdirp (get_cache_path hashC1 (("https://www.acas.org.uk/notice"))),
                    Eff.fileWrite (get_cache_path hashC1 (("https://www.acas.org.uk/notice"))) (("source.html")),
                    Eff.fileWrite (get_cache_path hashC1 (("https://www.acas.org.uk/notice"))) (("source.txt")),
                    Eff.fileWrite (get_cache_path hashC1 (("https://www.acas.org.uk/notice"))) (("meta.json"))] } ∧
      fetch_legal_source hashC1 (fun _ => ("ch")) 99 (fun _ => none) cache2
          (("https://www.acas.org.uk/notice")) false =
        { outcome := FetchOutcome.ok s, cache := cache2,
          trace := [Eff.cacheRead (get_cache_path hashC1 (("https://www.acas.org.uk/notice")))] }) :=
  ⟨by decide,
    fetch_twice_cached_identical hashC1 (fun _ => ("ch")) 7 99 netC9 (fun _ => none)
      [] _ (("<html>x</html>")) (("T")) (("Body text"))
      (by decide) (by decide) (by decide)⟩

/-! ### C10 (corrected): the excerpt is not in general a prefix, and cache
files are written directly, not via temp-and-rename -/

/-- Counterexample to C10: a fetched snapshot whose extracted text is
`"  padded  "` gets the excerpt `"padded"`, which is not a prefix of the
stored text; the claimed prefix property fails. -/
theorem snapshot_excerpt_prefix_counterexample :
    fetchC10.outcome = FetchOutcome.ok srcC10 ∧
    srcC10.excerpt = ("padded") ∧
    srcC10.text = ("  padded  ") ∧
    srcC10.excerpt.data.isPrefixOf srcC10.text.data = false := by decide

/-- C10 as amended: the snapshot excerpt is `text[:500].strip()` with an
ellipsis appended when the text is longer than 500 characters (a prefix only
when the short text carries no surrounding whitespace), and `store_source`
persists its three cache files with direct writes after creating the
directory — its effect trace contains no rename and no temporary file. The
reloaded excerpt follows the same formula. -/
theorem store_source_excerpt_and_direct_writes
    (urlHash contentHash : String → String) (now : Nat) (cache : Cache)
    (url html text title : String) :
    (store_source urlHash contentHash now cache url html text title).1.excerpt =
      make_excerpt
        (store_source urlHash contentHash now cache url html text title).1.text ∧
    (store_source urlHash contentHash now cache url html text title).1.text = text ∧
    (store_source urlHash contentHash now cache url html text title).2.2 =
      [Eff.mkdirp (get_cache_path urlHash url),
       Eff.fileWrite (get_cache_path urlHash url) (("source.html")),
       Eff.fileWrite (get_cache_path urlHash url) (("source.txt")),
       Eff.fileWrite (get_cache_path urlHash url) (("meta.json"))] ∧
    ((store_source urlHash contentHash now cache url html text title).2.2.all
      (fun e => match e with
        | Eff.fileRename _ _ _ => false
        | _ => true)) = true ∧
    (∀ entry : CacheEntry, (load_source_from_path entry).excerpt =
      make_excerpt (load_source_from_path entry).text) :=
  ⟨rfl, rfl, rfl, rfl, fun _ => rfl⟩

/-! ### C2: a citation marked valid contains its excerpt, verbatim or by
the ≥ 0.8 sliding window; two-word excerpts never fuzzy-match -/

theorem fuzzy_match_short_false (e t : String)
    (h : (pySplitWords (normalize_whitespace e)).length < 3) :
    fuzzy_excerpt_match e t = false := by
  unfold fuzzy_excerpt_match
  rw [if_pos h]

theorem fuzzy_match_true_window (e t : String)
    (h : fuzzy_excerpt_match e t = true) :
    3 ≤ (pySplitWords (normalize_whitespace e)).length ∧
    ∃ i, i + (pySplitWords (normalize_whitespace e)).length ≤
          (pySplitWords (normalize_whitespace t)).length ∧
      (4 : ℚ)/5 ≤ windowMatchRate (pySplitWords (normalize_whitespace e))
        (pySplitWords (normalize_whitespace t)) i := by
  unfold fuzzy_excerpt_match at h
  by_cases hlen : (pySplitWords (normalize_whitespace e)).length < 3
  · rw [if_pos hlen] at h
    exact absurd h (by simp)
  · rw [if_neg hlen] at h
    rw [List.any_eq_true] at h
    obtain ⟨i, hi, hdec⟩ := h
    rw [List.mem_range] at hi
    exact ⟨by omega, i, by omega, by simpa using hdec⟩

/-- C2: whenever `validate_legal_citation` returns valid, the normalized
excerpt is a substring of the normalized source text, or the excerpt has at
least 3 words and some window of the source word list of the excerpt's
length reaches positional match rate ≥ 0.8; and an excerpt of exactly 2
words can never pass through the fuzzy path. -/
theorem validator_valid_excerpt_containment (cache : Cache) (c : Citation)
    (h : (validate_legal_citation cache c).1 = true) :
    (∃ source, get_source cache c.id = some source ∧
      (containsSub (normalize_whitespace source.text).data
          (normalize_whitespace c.excerpt).data = true ∨
       (3 ≤ (pySplitWords (normalize_whitespace c.excerpt)).length ∧
        ∃ i, i + (pySplitWords (normalize_whitespace c.excerpt)).length ≤
              (pySplitWords (normalize_whitespace source.text)).length ∧
          (4 : ℚ)/5 ≤ windowMatchRate
            (pySplitWords (normalize_whitespace c.excerpt))
            (pySplitWords (normalize_whitespace source.text)) i))) ∧
    (∀ e t, (pySplitWords (normalize_whitespace e)).length = 2 →
      fuzzy_excerpt_match e t = false) := by
  refine ⟨?_, fun e t ht => fuzzy_match_short_false e t (by omega)⟩
  unfold validate_legal_citation at h
  split at h
  · simp at h
  · rename_i source heq
    refine ⟨source, heq, ?_⟩
    by_cases hsub : containsSub (normalize_whitespace source.text).data
        (normalize_whitespace c.excerpt).data = true
    · exact Or.inl hsub
    · by_cases hfz : fuzzy_excerpt_match c.excerpt source.text = true
      · exact Or.inr (fuzzy_match_true_window _ _ hfz)
      · exfalso
        rw [Bool.not_eq_true] at hsub hfz
        rw [hsub, hfz] at h
        repeat' split at h
        all_goals
          (first
            | (rw [apply_ite Prod.fst] at h; simp_all)
            | simp_all)

/-- Witness for C2 at a concrete cached snapshot and citation that validate
through the verbatim-containment path. -/
theorem validator_valid_excerpt_containment_witness :
    (validate_legal_citation cacheC2 citC2).1 = true ∧
    ((∃ source, get_source cacheC2 citC2.id = some source ∧
      (containsSub (normalize_whitespace source.text).data
          (normalize_whitespace citC2.excerpt).data = true ∨
       (3 ≤ (pySplitWords (normalize_whitespace citC2.excerpt)).length ∧
        ∃ i, i + (pySplitWords (normalize_whitespace citC2.excerpt)).length ≤
              (pySplitWords (normalize_whitespace source.text)).length ∧
          (4 : ℚ)/5 ≤ windowMatchRate
            (pySplitWords (normalize_whitespace citC2.excerpt))
            (pySplitWords (normalize_whitespace source.text)) i))) ∧
    (∀ e t, (pySplitWords (normalize_whitespace e)).length = 2 →
      fuzzy_excerpt_match e t = false)) :=
  ⟨by decide, validator_valid_excerpt_containment cacheC2 citC2 (by decide)⟩

/-! ### C6 (corrected): client check 1 is the two-step resolution, but the
file name is never compared when the chunk id resolves -/

/-- Counterexample to C6: `citC6` names file `b.pdf`, which does not exist
in the case, while its chunk id `c1` belongs to `a.pdf`; the validator still
accepts it, so check 2 (file-name consistency) is not enforced on the
chunk-id path. -/
theorem client_filename_unchecked_counterexample :
    (validate_client_citation idxC6 citC6).1 = true ∧
    (validate_client_citation idxC6 citC6).2 = ("Valid") ∧
    citC6.file_name = some (("b.pdf")) ∧
    lookupStr idxC6.chunks (("c1")) =
      some { file_name := ("a.pdf"), page_num := some 1 } ∧
    lookupStr idxC6.documents (("b.pdf")) = none := by decide

/-- C6 as amended: for a client citation with a truthy file name, check 1
passes exactly when the chunk id resolves to a raw-text file or the
(file, page?) pair resolves to concatenated chunk text — resolution failure
yields the `Source document not found` error and validity implies
resolution; but when the chunk id resolves, the citation's file name is not
compared against anything: the verdict is unchanged under any other truthy
file name. -/
theorem validate_client_resolution (idx : CaseIndex) (c : Citation)
    (hfn : ∃ f, c.file_name = some f ∧ f ≠ ("")) :
    ((validate_client_citation idx c).1 = true → resolveChunkText idx c ≠ none) ∧
    (resolveChunkText idx c = none →
      validate_client_citation idx c =
        (false, ("Source document not found: ") ++ c.file_name.getD (""))) ∧
    (∀ t, get_chunk_text idx c.id = some t → (!(c.id == (""))) = true →
      ∀ f2, f2 ≠ ("") →
        (validate_client_citation idx { c with file_name := some f2 }).1 =
        (validate_client_citation idx c).1) := by
  obtain ⟨f, hf, hfne⟩ := hfn
  have hcond : (match c.file_name with
      | none => true
      | some f => f == ("")) = false := by
    rw [hf]
    simpa using hfne
  refine ⟨?_, ?_, ?_⟩
  · intro hvalid hnone
    unfold validate_client_citation at hvalid
    rw [hcond] at hvalid
    simp only [Bool.false_eq_true, if_false] at hvalid
    rw [hnone] at hvalid
    simp at hvalid
  · intro hnone
    unfold validate_client_citation
    rw [hcond]
    simp only [Bool.false_eq_true, if_false]
    rw [hnone]
  · intro t hct hid f2 hf2
    have hres : resolveChunkText idx c = some t := by
      unfold resolveChunkText
      rw [if_pos hid, hct]
    have hres2 : resolveChunkText idx { c with file_name := some f2 } = some t := by
      unfold resolveChunkText
      rw [if_pos hid]
      simp only [hct]
    have hcond2 : (match ({ c with file_name := some f2 } : Citation).file_name with
        | none => true
        | some f => f == ("")) = false := by
      simpa using hf2
    unfold validate_client_citation
    rw [hcond, hcond2]
    simp only [Bool.false_eq_true, if_false]
    rw [hres, hres2]
    by_cases he : (c.excerpt == ("")) = true <;>
      by_cases hs2 : containsSub (normalize_whitespace t).data
          (normalize_whitespace c.excerpt).data = true <;>
      by_cases hf3 : fuzzy_excerpt_match c.excerpt t = true <;>
      simp [he, hs2, hf3]

/-- Witness for C6's amended theorem at the concrete case index, using the
citation with the chunk's real file name. -/
theorem validate_client_resolution_witness :
    (∃ f, citC6b.file_name = some f ∧ f ≠ ("")) ∧
    (((validate_client_citation idxC6 citC6b).1 = true →
        resolveChunkText idxC6 citC6b ≠ none) ∧
     (resolveChunkText idxC6 citC6b = none →
        validate_client_citation idxC6 citC6b =
          (false, ("Source document not found: ") ++
            citC6b.file_name.getD (""))) ∧
     (∀ t, get_chunk_text idxC6 citC6b.id = some t →
        (!(citC6b.id == (""))) = true →
        ∀ f2, f2 ≠ ("") →
          (validate_client_citation idxC6
            { citC6b with file_name := some f2 }).1 =
          (validate_client_citation idxC6 citC6b).1)) :=
  ⟨⟨("a.pdf"), rfl, by decide⟩,
    validate_client_resolution idxC6 citC6b ⟨("a.pdf"), rfl, by decide⟩⟩

/-! ### C3 (corrected): unknown-URL legal markers produce no Citation, and
such an answer can still be returned with citations_valid = true -/

/-- Counterexample to C3: `ansC3` contains a legal-pattern marker whose URL
matches no handed snapshot. The parser produces no Citation at all for the
marker (the legal branch drops it rather than emitting a citation without a
snapshot id, and — the URL containing a comma — the client pattern does not
capture it either); the only parsed citation is the valid client one, and
the engine returns the answer with `citations_valid = true` on the first
attempt. -/
theorem parse_unknown_url_counterexample :
    (legalFindAll ansC3).map (fun m => strStrip m.1) =
      [("https://www.gov.uk/x,y")] ∧
    (lsC3.all (fun s => !(s.url == ("https://www.gov.uk/x,y")))) = true ∧
    (parse_citations ansC3 lsC3).map (fun c => c.source_type) = [("client")] ∧
    (generate_answer idxC3 [] [] lsC3 (fun _ => ansC3)).citations_valid = true ∧
    (generate_answer idxC3 [] [] lsC3 (fun _ => ansC3)).attempts = 1 := by
  decide

/-- C3 as amended: the legal parsing branch emits a Citation only for
markers whose URL equals a handed snapshot's URL, carrying that snapshot's
id; a legal marker with an unknown URL yields no legal Citation, and every
other citation the parser produces is client-typed. -/
theorem parse_legal_requires_known_url (answer : String)
    (ls : List LegalSource) (c : Citation)
    (hc : c ∈ parse_citations answer ls) :
    c.source_type = ("client") ∨
    (c.source_type = ("legal") ∧
      ∃ s ∈ ls, c.id = s.id ∧ c.url = some s.url) := by
  unfold parse_citations at hc
  rw [List.mem_append] at hc
  rcases hc with hc | hc
  · left
    rw [List.mem_map] at hc
    obtain ⟨m, _, rfl⟩ := hc
    rfl
  · right
    rw [List.mem_filterMap] at hc
    obtain ⟨m, _, hm⟩ := hc
    cases hfind : ls.find? (fun s => s.url == strStrip m.1) with
    | none =>
      simp only [hfind] at hm
      exact Option.noConfusion hm
    | some s =>
      simp only [hfind] at hm
      by_cases hid : (s.id == ("")) = true
      · rw [if_pos hid] at hm; simp at hm
      · rw [if_neg hid] at hm
        have hc' := Option.some.inj hm
        have hurl : s.url = strStrip m.1 :=
          eq_of_beq
            (List.find?_some (p := fun x : LegalSource => x.url == strStrip m.1)
              hfind)
        refine ⟨by rw [← hc'], s, List.mem_of_find?_eq_some hfind, ?_, ?_⟩
        · rw [← hc']
        · rw [← hc', hurl]

/-- Witness for the amended C3 at a concrete answer whose legal marker URL
is a handed snapshot. -/
theorem parse_legal_requires_known_url_witness :
    citC3b ∈ parse_citations ansC3b lsC3 ∧
    (citC3b.source_type = ("client") ∨
      (citC3b.source_type = ("legal") ∧
        ∃ s ∈ lsC3, citC3b.id = s.id ∧ citC3b.url = some s.url)) :=
  ⟨by decide, parse_legal_requires_known_url ansC3b lsC3 citC3b (by decide)⟩

/-! ### C4: at most MAX_CITATION_RETRIES + 1 attempts, the no-citations
failure, and first-success return -/

theorem answerLoop_attempts_le (idx : CaseIndex) (cache : Cache)
    (ce : List SearchResult) (ls : List LegalSource) (answers : Nat → String)
    (ev : Bool) :
    ∀ r a, (answerLoop idx cache ce ls answers ev a r).attempts ≤ a + r + 1 := by
  intro r
  induction r with
  | zero =>
    intro a
    unfold answerLoop
    by_cases hb : (attemptOutcome idx cache ls ev (answers a)).1 = true
    · rw [if_pos hb]
    · rw [if_neg hb]
  | succ n ih =>
    intro a
    unfold answerLoop
    by_cases hb : (attemptOutcome idx cache ls ev (answers a)).1 = true
    · rw [if_pos hb]
      simp
    · rw [if_neg hb]
      exact le_trans (ih (a + 1)) (by omega)

theorem answerLoop_first_success (idx : CaseIndex) (cache : Cache)
    (ce : List SearchResult) (ls : List LegalSource) (answers : Nat → String)
    (ev : Bool) :
    ∀ i r a, i ≤ r →
    (∀ j, a ≤ j → j < a + i →
      (attemptOutcome idx cache ls ev (answers j)).1 = false) →
    (attemptOutcome idx cache ls ev (answers (a + i))).1 = true →
    answerLoop idx cache ce ls answers ev a r =
      { answer := answers (a + i), client_evidence := ce, legal_sources := ls,
        citations := (attemptOutcome idx cache ls ev (answers (a + i))).2.1,
        citations_valid := true, validation_errors := [],
        attempts := a + i + 1 } := by
  intro i
  induction i with
  | zero =>
    intro r a _ _ hok
    rw [Nat.add_zero] at hok ⊢
    unfold answerLoop
    simp [hok]
  | succ n ih =>
    intro r a hir hfail hok
    have h0 : (attemptOutcome idx cache ls ev (answers a)).1 = false :=
      hfail a (le_refl a) (by omega)
    cases r with
    | zero => omega
    | succ r' =>
      unfold answerLoop
      simp only [h0, Bool.false_eq_true, if_false]
      have harith : a + 1 + n = a + (n + 1) := by omega
      have hrec := ih r' (a + 1) (by omega)
        (fun j hj1 hj2 => hfail j (by omega) (by omega))
        (by rw [harith]; exact hok)
      rw [harith] at hrec
      exact hrec

theorem answerLoop_all_fail (idx : CaseIndex) (cache : Cache)
    (ce : List SearchResult) (ls : List LegalSource) (answers : Nat → String)
    (ev : Bool) :
    ∀ r a, (∀ j, a ≤ j → j ≤ a + r →
      (attemptOutcome idx cache ls ev (answers j)).1 = false) →
    answerLoop idx cache ce ls answers ev a r =
      { answer := answers (a + r) ++ warningSuffix, client_evidence := ce,
        legal_sources := ls,
        citations := (attemptOutcome idx cache ls ev (answers (a + r))).2.1,
        citations_valid := false,
        validation_errors :=
          (attemptOutcome idx cache ls ev (answers (a + r))).2.2,
        attempts := a + r + 1 } := by
  intro r
  induction r with
  | zero =>
    intro a hfail
    have h0 : (attemptOutcome idx cache ls ev (answers a)).1 = false :=
      hfail a (le_refl a) (by omega)
    rw [Nat.add_zero]
    unfold answerLoop
    simp only [h0, Bool.false_eq_true, if_false]
  | succ n ih =>
    intro a hfail
    have h0 : (attemptOutcome idx cache ls ev (answers a)).1 = false :=
      hfail a (le_refl a) (by omega)
    unfold answerLoop
    simp only [h0, Bool.false_eq_true, if_false]
    have harith : a + 1 + n = a + (n + 1) := by omega
    have hrec := ih (a + 1) (fun j hj1 hj2 => hfail j (by omega) (by omega))
    rw [harith] at hrec
    exact hrec

/-- C4: `generate_answer` makes at most `MAX_CITATION_RETRIES + 1` LLM
attempts (3 by default); an attempt with evidence available and an empty
parsed citation list fails with exactly the single error
`"No citations found despite available evidence."`; and the first attempt
whose validation succeeds returns immediately with `citations_valid = true`
and no further LLM calls. -/
theorem generate_answer_retry_bound (idx : CaseIndex) (cache : Cache)
    (ce : List SearchResult) (ls : List LegalSource) (answers : Nat → String)
    (i : Nat) (hi : i ≤ MAX_CITATION_RETRIES)
    (hfail : ∀ j < i, (attemptOutcome idx cache ls
      (!ce.isEmpty || !ls.isEmpty) (answers j)).1 = false)
    (hok : (attemptOutcome idx cache ls
      (!ce.isEmpty || !ls.isEmpty) (answers i)).1 = true) :
    MAX_CITATION_RETRIES + 1 = 3 ∧
    (∀ ans2 : Nat → String,
      (generate_answer idx cache ce ls ans2).attempts ≤
        MAX_CITATION_RETRIES + 1) ∧
    (∀ s : String, (!ce.isEmpty || !ls.isEmpty) = true →
      parse_citations s ls = [] →
      attemptOutcome idx cache ls (!ce.isEmpty || !ls.isEmpty) s =
        (false, [], [noCitationsError])) ∧
    generate_answer idx cache ce ls answers =
      { answer := answers i, client_evidence := ce, legal_sources := ls,
        citations := (attemptOutcome idx cache ls
          (!ce.isEmpty || !ls.isEmpty) (answers i)).2.1,
        citations_valid := true, validation_errors := [],
        attempts := i + 1 } := by
  refine ⟨rfl, ?_, ?_, ?_⟩
  · intro ans2
    have h := answerLoop_attempts_le idx cache ce ls ans2
      (!ce.isEmpty || !ls.isEmpty) MAX_CITATION_RETRIES 0
    unfold generate_answer
    simpa using h
  · intro s hev hparse
    unfold attemptOutcome
    rw [hparse, hev]
    rfl
  · unfold generate_answer
    have h := answerLoop_first_success idx cache ce ls answers
      (!ce.isEmpty || !ls.isEmpty) i MAX_CITATION_RETRIES 0 hi
      (fun j hj1 hj2 => hfail j (by omega)) (by simpa using hok)
    simpa using h

/-- Witness for C4: a concrete oracle failing on attempt 0 (no citations
despite legal evidence) and succeeding on attempt 1 with a valid client
citation; the engine returns after exactly 2 LLM calls. -/
theorem generate_answer_retry_bound_witness :
    (1 ≤ MAX_CITATION_RETRIES) ∧
    (∀ j < 1, (attemptOutcome idxC4 [] lsC4
      (!(([] : List SearchResult)).isEmpty || !lsC4.isEmpty)
      (answersC4 j)).1 = false) ∧
    ((attemptOutcome idxC4 [] lsC4
      (!(([] : List SearchResult)).isEmpty || !lsC4.isEmpty)
      (answersC4 1)).1 = true) ∧
    (MAX_CITATION_RETRIES + 1 = 3 ∧
     (∀ ans2 : Nat → String,
       (generate_answer idxC4 [] [] lsC4 ans2).attempts ≤
         MAX_CITATION_RETRIES + 1) ∧
     (∀ s : String,
       (!(([] : List SearchResult)).isEmpty || !lsC4.isEmpty) = true →
       parse_citations s lsC4 = [] →
       attemptOutcome idxC4 [] lsC4
         (!(([] : List SearchResult)).isEmpty || !lsC4.isEmpty) s =
         (false, [], [noCitationsError])) ∧
     generate_answer idxC4 [] [] lsC4 answersC4 =
       { answer := answersC4 1, client_evidence := [], legal_sources := lsC4,
         citations := (attemptOutcome idxC4 [] lsC4
           (!(([] : List SearchResult)).isEmpty || !lsC4.isEmpty)
           (answersC4 1)).2.1,
         citations_valid := true, validation_errors := [], attempts := 2 }) :=
  ⟨by decide, by decide, by decide,
    generate_answer_retry_bound idxC4 [] [] lsC4 answersC4 1
      (by decide) (by decide) (by decide)⟩

/-! ### C5: when every attempt fails, the engine still returns the answer
with a visible warning -/

/-- C5: when all attempts fail validation, `generate_answer` does not raise:
it returns the last attempt's answer with the warning suffix appended,
`citations_valid = false` and the last attempt's validation errors, and the
full answer text is kept as a prefix of the returned text. -/
theorem generate_answer_all_fail_warning (idx : CaseIndex) (cache : Cache)
    (ce : List SearchResult) (ls : List LegalSource) (answers : Nat → String)
    (hfail : ∀ j ≤ MAX_CITATION_RETRIES,
      (attemptOutcome idx cache ls
        (!ce.isEmpty || !ls.isEmpty) (answers j)).1 = false) :
    generate_answer idx cache ce ls answers =
      { answer := answers MAX_CITATION_RETRIES ++ warningSuffix,
        client_evidence := ce, legal_sources := ls,
        citations := (attemptOutcome idx cache ls
          (!ce.isEmpty || !ls.isEmpty) (answers MAX_CITATION_RETRIES)).2.1,
        citations_valid := false,
        validation_errors := (attemptOutcome idx cache ls
          (!ce.isEmpty || !ls.isEmpty) (answers MAX_CITATION_RETRIES)).2.2,
        attempts := MAX_CITATION_RETRIES + 1 } ∧
    (answers MAX_CITATION_RETRIES).data.isPrefixOf
      (generate_answer idx cache ce ls answers).answer.data = true := by
  have hmain := answerLoop_all_fail idx cache ce ls answers
    (!ce.isEmpty || !ls.isEmpty) MAX_CITATION_RETRIES 0
    (fun j hj1 hj2 => hfail j (by omega))
  have hfirst : generate_answer idx cache ce ls answers =
      { answer := answers MAX_CITATION_RETRIES ++ warningSuffix,
        client_evidence := ce, legal_sources := ls,
        citations := (attemptOutcome idx cache ls
          (!ce.isEmpty || !ls.isEmpty) (answers MAX_CITATION_RETRIES)).2.1,
        citations_valid := false,
        validation_errors := (attemptOutcome idx cache ls
          (!ce.isEmpty || !ls.isEmpty) (answers MAX_CITATION_RETRIES)).2.2,
        attempts := MAX_CITATION_RETRIES + 1 } := by
    unfold generate_answer
    simpa using hmain
  refine ⟨hfirst, ?_⟩
  rw [hfirst]
  show (answers MAX_CITATION_RETRIES).data.isPrefixOf
    ((answers MAX_CITATION_RETRIES) ++ warningSuffix).data = true
  rw [String.data_append, List.isPrefixOf_iff_prefix]
  exact List.prefix_append _ _

/-- Witness for C5: an oracle that never cites while legal evidence exists;
all three attempts fail and the warning-annotated answer is returned. -/
theorem generate_answer_all_fail_warning_witness :
    (∀ j ≤ MAX_CITATION_RETRIES,
      (attemptOutcome idxC4 [] lsC4
        (!(([] : List SearchResult)).isEmpty || !lsC4.isEmpty)
        (answersC5 j)).1 = false) ∧
    (generate_answer idxC4 [] [] lsC4 answersC5 =
      { answer := answersC5 MAX_CITATION_RETRIES ++ warningSuffix,
        client_evidence := [], legal_sources := lsC4,
        citations := (attemptOutcome idxC4 [] lsC4
          (!(([] : List SearchResult)).isEmpty || !lsC4.isEmpty)
          (answersC5 MAX_CITATION_RETRIES)).2.1,
        citations_valid := false,
        validation_errors := (attemptOutcome idxC4 [] lsC4
          (!(([] : List SearchResult)).isEmpty || !lsC4.isEmpty)
          (answersC5 MAX_CITATION_RETRIES)).2.2,
        attempts := MAX_CITATION_RETRIES + 1 } ∧
     (answersC5 MAX_CITATION_RETRIES).data.isPrefixOf
       (generate_answer idxC4 [] [] lsC4 answersC5).answer.data = true) :=
  ⟨by decide,
    generate_answer_all_fail_warning idxC4 [] [] lsC4 answersC5 (by decide)⟩

/-! ### C7: hybrid results respect top-k, the per-document cap and the
Jaccard deduplication rule -/

theorem jaccard_comm (a b : Finset String) : jaccard a b = jaccard b a := by
  unfold jaccard
  rw [Finset.union_comm, Finset.inter_comm]

theorem jaccard_empty_left (b : Finset String) : jaccard ∅ b = 0 := by
  unfold jaccard
  split
  · rfl
  · simp

theorem isDuplicateOf_false_jaccard_lt (θ : ℚ) (hθ : 0 < θ)
    (kept : List SearchResult) (r : SearchResult)
    (h : isDuplicateOf θ kept r = false) :
    ∀ x ∈ kept,
      jaccard (tokenize x.text).toFinset (tokenize r.text).toFinset < θ := by
  intro x hx
  unfold isDuplicateOf at h
  rw [List.any_eq_false] at h
  have hx2 := h x hx
  by_cases hemp : ((tokenize r.text).toFinset = (∅ : Finset String) ∨
      (tokenize x.text).toFinset = (∅ : Finset String))
  · rcases hemp with he | he
    · rw [jaccard_comm, he, jaccard_empty_left]
      exact hθ
    · rw [he, jaccard_empty_left]
      exact hθ
  · rw [if_neg hemp] at hx2
    rw [jaccard_comm]
    exact lt_of_not_le (by simpa using hx2)

theorem dedupeGo_sublist (θ : ℚ) :
    ∀ (rest kept : List SearchResult),
      (dedupeGo θ kept rest).Sublist (kept ++ rest) := by
  intro rest
  induction rest with
  | nil =>
    intro kept
    simp [dedupeGo]
  | cons r rs ih =>
    intro kept
    unfold dedupeGo
    by_cases hd : isDuplicateOf θ kept r = true
    · rw [if_pos hd]
      exact (ih kept).trans
        ((List.sublist_cons_self r rs).append_left kept)
    · rw [if_neg hd]
      have h2 := ih (kept ++ [r])
      rwa [List.append_assoc, List.singleton_append] at h2

theorem dedupe_results_sublist (l : List SearchResult) (θ : ℚ) :
    (dedupe_results l θ).Sublist l := by
  rcases l with _ | ⟨r, rest⟩
  · simp [dedupe_results]
  · rcases rest with _ | ⟨r2, rest2⟩
    · simp [dedupe_results]
    · exact dedupeGo_sublist θ (r2 :: rest2) [r]

theorem dedupeGo_pairwise (θ : ℚ) (hθ : 0 < θ) :
    ∀ (rest kept : List SearchResult),
    kept.Pairwise (fun a b =>
      jaccard (tokenize a.text).toFinset (tokenize b.text).toFinset < θ) →
    (dedupeGo θ kept rest).Pairwise (fun a b =>
      jaccard (tokenize a.text).toFinset (tokenize b.text).toFinset < θ) := by
  intro rest
  induction rest with
  | nil =>
    intro kept h
    simpa [dedupeGo] using h
  | cons r rs ih =>
    intro kept h
    unfold dedupeGo
    by_cases hd : isDuplicateOf θ kept r = true
    · rw [if_pos hd]
      exact ih kept h
    · rw [if_neg hd]
      apply ih
      rw [List.pairwise_append]
      refine ⟨h, by simp, fun x hx b hb => ?_⟩
      rw [List.mem_singleton] at hb
      rw [hb]
      exact isDuplicateOf_false_jaccard_lt θ hθ kept r (by simpa using hd) x hx

theorem dedupe_results_pairwise (l : List SearchResult) (θ : ℚ) (hθ : 0 < θ) :
    (dedupe_results l θ).Pairwise (fun a b =>
      jaccard (tokenize a.text).toFinset (tokenize b.text).toFinset < θ) := by
  rcases l with _ | ⟨r, rest⟩
  · simp [dedupe_results]
  · rcases rest with _ | ⟨r2, rest2⟩
    · simp [dedupe_results]
    · exact dedupeGo_pairwise θ hθ (r2 :: rest2) [r] (by simp)

theorem find?_updateCount_overwrite (counts : List (String × Nat)) (k : String)
    (v : Nat) (h : counts.any (fun kv => kv.1 == k) = true) :
    ((counts.map (fun kv => if kv.1 == k then (kv.1, v) else kv)).find?
      (fun kv => kv.1 == k)).map (fun kv => kv.2) = some v := by
  induction counts with
  | nil => simp at h
  | cons kv rest ih =>
    simp only [List.any_cons, Bool.or_eq_true] at h
    by_cases hk : (kv.1 == k) = true
    · simp only [List.map_cons]
      rw [if_pos hk, List.find?_cons_of_pos _ (by exact hk)]
      rfl
    · have hkf : (kv.1 == k) = false := by simpa using hk
      have h2 : (rest.any fun kv => kv.1 == k) = true := by
        rcases h with h1 | h2
        · exact absurd h1 hk
        · exact h2
      simp only [List.map_cons, hkf, Bool.false_eq_true, if_false]
      rw [List.find?_cons_of_neg _ (by simp [hkf])]
      exact ih h2

theorem lookupStr_updateCount_self (counts : List (String × Nat)) (k : String)
    (v : Nat) : lookupStr (updateCount counts k v) k = some v := by
  unfold updateCount lookupStr
  by_cases h : counts.any (fun kv => kv.1 == k) = true
  · rw [if_pos h]
    exact find?_updateCount_overwrite counts k v h
  · rw [if_neg h, List.find?_append]
    have hnone : counts.find? (fun kv => kv.1 == k) = none := by
      rw [List.find?_eq_none]
      intro x hx hpx
      exact h (List.any_eq_true.mpr ⟨x, hx, hpx⟩)
    simp [hnone, List.find?_cons]

theorem find?_updateCount_ne (counts : List (String × Nat)) (k k2 : String)
    (v : Nat) (hne : (k == k2) = false) :
    (counts.map (fun kv => if kv.1 == k then (kv.1, v) else kv)).find?
      (fun kv => kv.1 == k2) = counts.find? (fun kv => kv.1 == k2) := by
  induction counts with
  | nil => rfl
  | cons kv rest ih =>
    by_cases h1 : (kv.1 == k) = true
    · have hkeq : kv.1 = k := eq_of_beq h1
      have hpred : (kv.1 == k2) = false := by rw [hkeq]; exact hne
      simp only [List.map_cons, h1, if_true]
      rw [List.find?_cons_of_neg _ (by simp [hpred]),
        List.find?_cons_of_neg _ (by simp [hpred])]
      exact ih
    · have h1f : (kv.1 == k) = false := by simpa using h1
      simp only [List.map_cons, h1f, Bool.false_eq_true, if_false]
      by_cases h2 : (kv.1 == k2) = true
      · rw [List.find?_cons_of_pos _ (by exact h2),
          List.find?_cons_of_pos _ (by exact h2)]
      · rw [List.find?_cons_of_neg _ (by exact h2),
          List.find?_cons_of_neg _ (by exact h2)]
        exact ih

theorem lookupStr_updateCount_ne (counts : List (String × Nat)) (k k2 : String)
    (v : Nat) (hne : (k == k2) = false) :
    lookupStr (updateCount counts k v) k2 = lookupStr counts k2 := by
  unfold updateCount lookupStr
  by_cases h : counts.any (fun kv => kv.1 == k) = true
  · rw [if_pos h, find?_updateCount_ne counts k k2 v hne]
  · rw [if_neg h, List.find?_append]
    have : ([(k, v)].find? fun kv => kv.1 == k2) = none := by
      simp [List.find?_cons, hne]
    rw [this]
    cases counts.find? fun kv => kv.1 == k2 <;> rfl

theorem capGo_filter_le (cap : Nat) :
    ∀ (l : List SearchResult) (counts : List (String × Nat)) (fn : String),
    ((capGo cap l counts).filter
      (fun r => r.provenance.file_name == fn)).length ≤
      cap - ((lookupStr counts fn).getD 0) := by
  intro l
  induction l with
  | nil =>
    intro counts fn
    simp [capGo]
  | cons r rest ih =>
    intro counts fn
    unfold capGo
    by_cases hlt : ((lookupStr counts r.provenance.file_name).getD 0) < cap
    · rw [if_pos hlt]
      by_cases hfn : (r.provenance.file_name == fn) = true
      · have hfneq : r.provenance.file_name = fn := eq_of_beq hfn
        subst hfneq
        rw [List.filter_cons_of_pos (by exact hfn)]
        have hrec := ih (updateCount counts r.provenance.file_name
          (((lookupStr counts r.provenance.file_name).getD 0) + 1))
          r.provenance.file_name
        rw [lookupStr_updateCount_self] at hrec
        simp only [Option.getD_some] at hrec
        simp only [List.length_cons]
        omega
      · have hfnf : (r.provenance.file_name == fn) = false := by simpa using hfn
        rw [List.filter_cons_of_neg (by exact hfn)]
        have hrec := ih (updateCount counts r.provenance.file_name
          (((lookupStr counts r.provenance.file_name).getD 0) + 1)) fn
        rw [lookupStr_updateCount_ne counts r.provenance.file_name fn
          (((lookupStr counts r.provenance.file_name).getD 0) + 1) hfnf] at hrec
        exact hrec
    · rw [if_neg hlt]
      exact ih counts fn

theorem apply_doc_cap_filter_le (l : List SearchResult) (cap : Nat)
    (fn : String) :
    ((apply_doc_cap l cap).filter
      (fun r => r.provenance.file_name == fn)).length ≤ cap := by
  have h := capGo_filter_le cap l [] fn
  simpa [apply_doc_cap, lookupStr] using h

/-- C7: for every pair of candidate lists, every `top_k` and any weights,
the hybrid search result has length at most `top_k`, contains at most
`MAX_CHUNKS_PER_DOC` results per file name, and no two results in it have
token-set Jaccard similarity ≥ `DEDUPE_SIMILARITY_THRESHOLD`. -/
theorem search_cap_dedupe_invariant (bm vec : List SearchResult) (k : Nat)
    (wb wv : ℚ) :
    (search bm vec k wb wv).length ≤ k ∧
    (∀ fn, ((search bm vec k wb wv).filter
      (fun r => r.provenance.file_name == fn)).length ≤ MAX_CHUNKS_PER_DOC) ∧
    (search bm vec k wb wv).Pairwise (fun a b =>
      jaccard (tokenize a.text).toFinset (tokenize b.text).toFinset <
        DEDUPE_SIMILARITY_THRESHOLD) := by
  have hsearch : search bm vec k wb wv =
      (dedupe_results
        (apply_doc_cap
          (((mergeScores (normalize_scores bm) (normalize_scores vec)).map
            (fuseEntry wb wv)).mergeSort scoreDescending)
          MAX_CHUNKS_PER_DOC)
        DEDUPE_SIMILARITY_THRESHOLD).take k := rfl
  refine ⟨?_, ?_, ?_⟩
  · rw [hsearch]
    exact List.length_take_le _ _
  · intro fn
    rw [hsearch]
    have hsub : ((dedupe_results
        (apply_doc_cap
          (((mergeScores (normalize_scores bm) (normalize_scores vec)).map
            (fuseEntry wb wv)).mergeSort scoreDescending)
          MAX_CHUNKS_PER_DOC)
        DEDUPE_SIMILARITY_THRESHOLD).take k).Sublist
        (apply_doc_cap
          (((mergeScores (normalize_scores bm) (normalize_scores vec)).map
            (fuseEntry wb wv)).mergeSort scoreDescending)
          MAX_CHUNKS_PER_DOC) :=
      (List.take_sublist _ _).trans (dedupe_results_sublist _ _)
    exact le_trans (hsub.filter _).length_le (apply_doc_cap_filter_le _ _ fn)
  · rw [hsearch]
    exact (dedupe_results_pairwise _ _
      (by norm_num [DEDUPE_SIMILARITY_THRESHOLD])).sublist
      (List.take_sublist _ _)

/-! ### C8: per-list min-max normalization, zero for absent sides, weighted
fusion, descending order -/

theorem foldl_min_le_init (l : List ℚ) (init : ℚ) : l.foldl min init ≤ init := by
  induction l generalizing init with
  | nil => simp
  | cons x xs ih =>
    rw [List.foldl_cons]
    exact le_trans (ih (min init x)) (min_le_left _ _)

theorem foldl_min_le_mem (l : List ℚ) :
    ∀ (init x : ℚ), x ∈ l → l.foldl min init ≤ x := by
  induction l with
  | nil => intro init x hx; simp at hx
  | cons y ys ih =>
    intro init x hx
    rw [List.foldl_cons]
    rcases List.mem_cons.mp hx with rfl | h
    · exact le_trans (foldl_min_le_init ys (min init x)) (min_le_right _ _)
    · exact ih (min init y) x h

theorem init_le_foldl_max (l : List ℚ) (init : ℚ) : init ≤ l.foldl max init := by
  induction l generalizing init with
  | nil => simp
  | cons x xs ih =>
    rw [List.foldl_cons]
    exact le_trans (le_max_left _ _) (ih (max init x))

theorem mem_le_foldl_max (l : List ℚ) :
    ∀ (init x : ℚ), x ∈ l → x ≤ l.foldl max init := by
  induction l with
  | nil => intro init x hx; simp at hx
  | cons y ys ih =>
    intro init x hx
    rw [List.foldl_cons]
    rcases List.mem_cons.mp hx with rfl | h
    · exact le_trans (le_max_right _ _) (init_le_foldl_max ys (max init x))
    · exact ih (max init y) x h

theorem minScoreOf_le (l : List SearchResult) (r : SearchResult) (h : r ∈ l) :
    minScoreOf l ≤ r.score := by
  cases l with
  | nil => simp at h
  | cons a as =>
    unfold minScoreOf
    exact foldl_min_le_mem _ _ _ (List.mem_map_of_mem (fun x => x.score) h)

theorem le_maxScoreOf (l : List SearchResult) (r : SearchResult) (h : r ∈ l) :
    r.score ≤ maxScoreOf l := by
  cases l with
  | nil => simp at h
  | cons a as =>
    unfold maxScoreOf
    exact mem_le_foldl_max _ _ _ (List.mem_map_of_mem (fun x => x.score) h)

theorem normalize_scores_collapse (l : List SearchResult)
    (h : minScoreOf l = maxScoreOf l) :
    normalize_scores l = l.map (fun x =>
      { x with score := if 0 < maxScoreOf l then 1 else 0 }) := by
  cases l with
  | nil => rfl
  | cons a as =>
    simp only [normalize_scores]
    rw [if_pos (show maxScoreOf (a :: as) - minScoreOf (a :: as) = 0 from by
      rw [h]; ring)]

theorem normalize_scores_minmax (l : List SearchResult)
    (h : minScoreOf l ≠ maxScoreOf l) :
    normalize_scores l = l.map (fun x =>
      { x with score := (x.score - minScoreOf l) /
          (maxScoreOf l - minScoreOf l) }) := by
  cases l with
  | nil => rfl
  | cons a as =>
    simp only [normalize_scores]
    rw [if_neg (show ¬ maxScoreOf (a :: as) - minScoreOf (a :: as) = 0 from
      fun hc => h (by linarith [sub_eq_zero.mp hc]))]

theorem normalize_scores_bounds (l : List SearchResult) :
    ∀ r ∈ normalize_scores l, 0 ≤ r.score ∧ r.score ≤ 1 := by
  intro r hr
  cases l with
  | nil => simp [normalize_scores] at hr
  | cons a as =>
    simp only [normalize_scores] at hr
    by_cases hz : maxScoreOf (a :: as) - minScoreOf (a :: as) = 0
    · rw [if_pos hz, List.mem_map] at hr
      obtain ⟨x, hx, rfl⟩ := hr
      by_cases hpos : 0 < maxScoreOf (a :: as)
      · simp only [if_pos hpos]
        exact ⟨zero_le_one, le_refl 1⟩
      · simp only [if_neg hpos]
        exact ⟨le_refl 0, zero_le_one⟩
    · rw [if_neg hz, List.mem_map] at hr
      obtain ⟨x, hx, rfl⟩ := hr
      have h1 : minScoreOf (a :: as) ≤ x.score := minScoreOf_le _ _ hx
      have h2 : x.score ≤ maxScoreOf (a :: as) := le_maxScoreOf _ _ hx
      have hpos : 0 < maxScoreOf (a :: as) - minScoreOf (a :: as) :=
        lt_of_le_of_ne (by linarith) (Ne.symm hz)
      constructor
      · exact div_nonneg (by linarith) (le_of_lt hpos)
      · rw [div_le_one hpos]
        linarith

theorem normalize_scores_ids (l : List SearchResult) :
    (normalize_scores l).map (fun r => r.chunk_id) =
      l.map (fun r => r.chunk_id) := by
  cases l with
  | nil => rfl
  | cons a as =>
    simp only [normalize_scores]
    split <;> rw [List.map_map] <;> rfl

theorem scoreOf_of_mem (l : List SearchResult) (r : SearchResult)
    (hnodup : (l.map (fun x => x.chunk_id)).Nodup) (hr : r ∈ l) :
    scoreOf l r.chunk_id = r.score := by
  induction l with
  | nil => simp at hr
  | cons a as ih =>
    rw [List.map_cons, List.nodup_cons] at hnodup
    rcases List.mem_cons.mp hr with rfl | hmem
    · unfold scoreOf
      rw [List.find?_cons_of_pos _ (by exact beq_self_eq_true r.chunk_id)]
      rfl
    · have hane : (a.chunk_id == r.chunk_id) = false := by
        rw [beq_eq_false_iff_ne]
        intro hcon
        exact hnodup.1 (hcon ▸ List.mem_map_of_mem (fun x => x.chunk_id) hmem)
      unfold scoreOf
      rw [List.find?_cons_of_neg _ (by simp [hane])]
      exact ih hnodup.2 hmem

theorem scoreOf_eq_zero (l : List SearchResult) (id : String)
    (h : ∀ r ∈ l, (r.chunk_id == id) = false) : scoreOf l id = 0 := by
  unfold scoreOf
  rw [List.find?_eq_none.mpr (fun x hx => by simp [h x hx])]
  rfl

theorem scoreOf_append_ne (done : List SearchResult) (v : SearchResult)
    (id : String) (h : (v.chunk_id == id) = false) :
    scoreOf (done ++ [v]) id = scoreOf done id := by
  unfold scoreOf
  rw [List.find?_append]
  have hv : ([v].find? fun r => r.chunk_id == id) = none := by
    simp [List.find?_cons, h]
  rw [hv]
  cases done.find? fun r => r.chunk_id == id <;> rfl

theorem scoreOf_append_self (done : List SearchResult) (v : SearchResult)
    (h : (done.find? fun r => r.chunk_id == v.chunk_id) = none) :
    scoreOf (done ++ [v]) v.chunk_id = v.score := by
  unfold scoreOf
  rw [List.find?_append, h]
  simp [List.find?_cons]

theorem capGo_sublist (cap : Nat) :
    ∀ (l : List SearchResult) (counts : List (String × Nat)),
      (capGo cap l counts).Sublist l := by
  intro l
  induction l with
  | nil =>
    intro counts
    simp [capGo]
  | cons r rest ih =>
    intro counts
    unfold capGo
    split
    · exact (ih _).cons₂ r
    · exact (ih counts).cons r

theorem beq_false_symm {a b : String} (h : (a == b) = false) :
    (b == a) = false := by
  rw [beq_eq_false_iff_ne] at h ⊢
  exact fun hc => h hc.symm

theorem any_map_general {α β : Type} (f : α → β) (l : List α) (p : β → Bool) :
    (l.map f).any p = l.any (fun a => p (f a)) := by
  induction l with
  | nil => rfl
  | cons x xs ih => simp [List.any_cons, ih]

theorem foldl_addBm25_eq (l : List SearchResult) :
    ∀ acc : List MergedEntry,
    (∀ r ∈ l, ∀ e ∈ acc, (e.rep.chunk_id == r.chunk_id) = false) →
    (l.map (fun r => r.chunk_id)).Nodup →
    l.foldl addBm25 acc =
      acc ++ l.map (fun r =>
        ({ rep := r, bm25 := r.score, vector := 0 } : MergedEntry)) := by
  induction l with
  | nil =>
    intro acc _ _
    simp
  | cons r rest ih =>
    intro acc hdisj hnodup
    rw [List.foldl_cons, List.map_cons]
    have hany : (acc.any fun e => e.rep.chunk_id == r.chunk_id) = false := by
      rw [List.any_eq_false]
      intro e he
      simp [hdisj r (List.mem_cons_self r rest) e he]
    have hstep : addBm25 acc r =
        acc ++ [({ rep := r, bm25 := r.score, vector := 0 } : MergedEntry)] := by
      unfold addBm25
      rw [hany]
      rfl
    rw [hstep]
    rw [List.map_cons, List.nodup_cons] at hnodup
    have hih := ih
      (acc ++ [({ rep := r, bm25 := r.score, vector := 0 } : MergedEntry)])
      (by
        intro r2 hr2 e he
        rcases List.mem_append.mp he with he | he
        · exact hdisj r2 (List.mem_cons_of_mem r hr2) e he
        · rw [List.mem_singleton] at he
          subst he
          rw [beq_eq_false_iff_ne]
          intro hcon
          exact hnodup.1
            (hcon ▸ List.mem_map_of_mem (fun x => x.chunk_id) hr2))
      hnodup.2
    rw [hih, List.append_assoc, List.singleton_append]

theorem addVector_rep_pred (acc : List MergedEntry) (v : SearchResult)
    (id : String)
    (h : ((addVector acc v).any fun e => e.rep.chunk_id == id) = false) :
    (acc.any fun e => e.rep.chunk_id == id) = false := by
  unfold addVector at h
  by_cases hin : (acc.any fun e => e.rep.chunk_id == v.chunk_id) = true
  · rw [if_pos hin, any_map_general] at h
    rw [List.any_eq_false] at h ⊢
    intro e he
    have h2 := h e he
    by_cases hc : (e.rep.chunk_id == v.chunk_id) = true
    · rw [if_pos hc] at h2
      exact h2
    · rw [if_neg hc] at h2
      exact h2
  · rw [if_neg hin, List.any_append, Bool.or_eq_false_iff] at h
    exact h.1

theorem foldl_addVector_invariant (B : List SearchResult) :
    ∀ (vec done : List SearchResult) (acc : List MergedEntry),
    (vec.map (fun r => r.chunk_id)).Nodup →
    (∀ r ∈ vec, (done.find? fun x => x.chunk_id == r.chunk_id) = none) →
    (∀ e ∈ acc, e.bm25 = scoreOf B e.rep.chunk_id ∧
      e.vector = scoreOf done e.rep.chunk_id) →
    (∀ id, (acc.any fun e => e.rep.chunk_id == id) = false →
      scoreOf B id = 0) →
    ∀ e ∈ vec.foldl addVector acc,
      e.bm25 = scoreOf B e.rep.chunk_id ∧
      e.vector = scoreOf (done ++ vec) e.rep.chunk_id := by
  intro vec
  induction vec with
  | nil =>
    intro done acc _ _ hacc _ e he
    rw [List.append_nil]
    exact hacc e he
  | cons v rest ih =>
    intro done acc hnodup habsent hacc hB
    rw [List.foldl_cons]
    rw [List.map_cons, List.nodup_cons] at hnodup
    have habsent' : ∀ r ∈ rest,
        ((done ++ [v]).find? fun x => x.chunk_id == r.chunk_id) = none := by
      intro r hr
      have hne : (v.chunk_id == r.chunk_id) = false := by
        rw [beq_eq_false_iff_ne]
        intro hcon
        exact hnodup.1 (hcon ▸ List.mem_map_of_mem (fun x => x.chunk_id) hr)
      rw [List.find?_append, habsent r (List.mem_cons_of_mem v hr)]
      simp [List.find?_cons, hne]
    have hstep : ∀ e ∈ addVector acc v,
        e.bm25 = scoreOf B e.rep.chunk_id ∧
        e.vector = scoreOf (done ++ [v]) e.rep.chunk_id := by
      intro e he
      unfold addVector at he
      by_cases hin : (acc.any fun x => x.rep.chunk_id == v.chunk_id) = true
      · rw [if_pos hin, List.mem_map] at he
        obtain ⟨e0, he0, rfl⟩ := he
        by_cases hc : (e0.rep.chunk_id == v.chunk_id) = true
        · rw [if_pos hc]
          have hceq : e0.rep.chunk_id = v.chunk_id := eq_of_beq hc
          refine ⟨(hacc e0 he0).1, ?_⟩
          show v.score = scoreOf (done ++ [v]) e0.rep.chunk_id
          rw [hceq]
          exact (scoreOf_append_self done v
            (habsent v (List.mem_cons_self v rest))).symm
        · rw [if_neg hc]
          have hcf : (e0.rep.chunk_id == v.chunk_id) = false := by
            simpa using hc
          refine ⟨(hacc e0 he0).1, ?_⟩
          rw [scoreOf_append_ne done v e0.rep.chunk_id (beq_false_symm hcf)]
          exact (hacc e0 he0).2
      · rw [if_neg hin, List.mem_append] at he
        rcases he with he | he
        · have hinf : (acc.any fun x => x.rep.chunk_id == v.chunk_id) = false := by
            simpa using hin
          rw [List.any_eq_false] at hinf
          have hef : (e.rep.chunk_id == v.chunk_id) = false := by
            have h3 := hinf e he
            simpa using h3
          refine ⟨(hacc e he).1, ?_⟩
          rw [scoreOf_append_ne done v e.rep.chunk_id (beq_false_symm hef)]
          exact (hacc e he).2
        · rw [List.mem_singleton] at he
          subst he
          constructor
          · show (0 : ℚ) = scoreOf B v.chunk_id
            exact (hB v.chunk_id (by simpa using hin)).symm
          · show v.score = scoreOf (done ++ [v]) v.chunk_id
            exact (scoreOf_append_self done v
              (habsent v (List.mem_cons_self v rest))).symm
    have hB' : ∀ id,
        ((addVector acc v).any fun e => e.rep.chunk_id == id) = false →
        scoreOf B id = 0 :=
      fun id h => hB id (addVector_rep_pred acc v id h)
    intro e he
    have hmain := ih (done ++ [v]) (addVector acc v) hnodup.2 habsent'
      hstep hB' e he
    rwa [List.append_assoc, List.singleton_append] at hmain

theorem mergeScores_spec (bm vec : List SearchResult)
    (hbm : (bm.map fun r => r.chunk_id).Nodup)
    (hvec : (vec.map fun r => r.chunk_id).Nodup) :
    ∀ e ∈ mergeScores bm vec,
      e.bm25 = scoreOf bm e.rep.chunk_id ∧
      e.vector = scoreOf vec e.rep.chunk_id := by
  unfold mergeScores
  have hphase1 : bm.foldl addBm25 [] =
      bm.map (fun r =>
        ({ rep := r, bm25 := r.score, vector := 0 } : MergedEntry)) := by
    have h := foldl_addBm25_eq bm [] (by intro r _ e he; simp at he) hbm
    simpa using h
  rw [hphase1]
  exact foldl_addVector_invariant bm vec []
    (bm.map fun r => ({ rep := r, bm25 := r.score, vector := 0 } : MergedEntry))
    hvec
    (by intro r _; rfl)
    (by
      intro e he
      rw [List.mem_map] at he
      obtain ⟨r, hr, rfl⟩ := he
      constructor
      · show r.score = scoreOf bm r.chunk_id
        exact (scoreOf_of_mem bm r hbm hr).symm
      · rfl)
    (by
      intro id h
      rw [any_map_general, List.any_eq_false] at h
      apply scoreOf_eq_zero
      intro r hr
      have h2 := h r hr
      simpa using h2)

theorem mergeSort_scoreDescending_pairwise (l : List SearchResult) :
    (l.mergeSort scoreDescending).Pairwise (fun a b => b.score ≤ a.score) := by
  have htrans : ∀ (a b c : SearchResult),
      scoreDescending a b = true → scoreDescending b c = true →
      scoreDescending a c = true := by
    intro a b c h1 h2
    simp only [scoreDescending, decide_eq_true_eq] at h1 h2 ⊢
    exact le_trans h2 h1
  have htotal : ∀ (a b : SearchResult),
      (scoreDescending a b || scoreDescending b a) = true := by
    intro a b
    simp only [scoreDescending, Bool.or_eq_true, decide_eq_true_eq]
    exact le_total b.score a.score
  have h := List.sorted_mergeSort htrans htotal l
  exact h.imp (fun hab => by simpa [scoreDescending] using hab)

/-- C8: each candidate list is min-max normalized independently into [0,1]
with the collapse rule (all scores 1.0 when `max = min > 0`, else 0.0); a
chunk absent from one list contributes score 0 on that side; the fused score
of every returned chunk equals
`bm25_weight · normalized_lexical + vector_weight · normalized_vector`
(the source defaults both weights to 0.5); and the results are sorted by
fused score descending. -/
theorem search_normalization_and_fusion (bm vec : List SearchResult) (k : Nat)
    (wb wv : ℚ)
    (hbm : (bm.map fun r => r.chunk_id).Nodup)
    (hvec : (vec.map fun r => r.chunk_id).Nodup) :
    (∀ r ∈ normalize_scores bm, 0 ≤ r.score ∧ r.score ≤ 1) ∧
    (∀ r ∈ normalize_scores vec, 0 ≤ r.score ∧ r.score ≤ 1) ∧
    (minScoreOf bm = maxScoreOf bm → normalize_scores bm = bm.map (fun x =>
      { x with score := if 0 < maxScoreOf bm then 1 else 0 })) ∧
    (minScoreOf vec = maxScoreOf vec → normalize_scores vec = vec.map (fun x =>
      { x with score := if 0 < maxScoreOf vec then 1 else 0 })) ∧
    (minScoreOf bm ≠ maxScoreOf bm → normalize_scores bm = bm.map (fun x =>
      { x with score := (x.score - minScoreOf bm) /
          (maxScoreOf bm - minScoreOf bm) })) ∧
    (minScoreOf vec ≠ maxScoreOf vec → normalize_scores vec = vec.map (fun x =>
      { x with score := (x.score - minScoreOf vec) /
          (maxScoreOf vec - minScoreOf vec) })) ∧
    (∀ r ∈ search bm vec k wb wv,
      r.score = wb * scoreOf (normalize_scores bm) r.chunk_id +
        wv * scoreOf (normalize_scores vec) r.chunk_id) ∧
    (search bm vec k wb wv).Pairwise (fun a b => b.score ≤ a.score) := by
  have hbmN : ((normalize_scores bm).map fun r => r.chunk_id).Nodup := by
    rw [normalize_scores_ids]
    exact hbm
  have hvecN : ((normalize_scores vec).map fun r => r.chunk_id).Nodup := by
    rw [normalize_scores_ids]
    exact hvec
  have hsearch : search bm vec k wb wv =
      (dedupe_results (apply_doc_cap
        (((mergeScores (normalize_scores bm) (normalize_scores vec)).map
          (fuseEntry wb wv)).mergeSort scoreDescending) MAX_CHUNKS_PER_DOC)
        DEDUPE_SIMILARITY_THRESHOLD).take k := rfl
  have hchain : ((dedupe_results (apply_doc_cap
      (((mergeScores (normalize_scores bm) (normalize_scores vec)).map
        (fuseEntry wb wv)).mergeSort scoreDescending) MAX_CHUNKS_PER_DOC)
      DEDUPE_SIMILARITY_THRESHOLD).take k).Sublist
      (((mergeScores (normalize_scores bm) (normalize_scores vec)).map
        (fuseEntry wb wv)).mergeSort scoreDescending) :=
    (List.take_sublist _ _).trans
      ((dedupe_results_sublist _ _).trans (capGo_sublist _ _ _))
  refine ⟨normalize_scores_bounds bm, normalize_scores_bounds vec,
    normalize_scores_collapse bm, normalize_scores_collapse vec,
    normalize_scores_minmax bm, normalize_scores_minmax vec, ?_, ?_⟩
  · intro r hr
    rw [hsearch] at hr
    have hr2 := hchain.subset hr
    rw [(List.mergeSort_perm _ _).mem_iff, List.mem_map] at hr2
    obtain ⟨e, hemem, rfl⟩ := hr2
    have hspec := mergeScores_spec _ _ hbmN hvecN e hemem
    show wb * e.bm25 + wv * e.vector =
      wb * scoreOf (normalize_scores bm) e.rep.chunk_id +
        wv * scoreOf (normalize_scores vec) e.rep.chunk_id
    rw [hspec.1, hspec.2]
  · rw [hsearch]
    exact (mergeSort_scoreDescending_pairwise _).sublist hchain

/-- Witness for C8 at concrete one-element candidate lists with distinct
chunk ids. -/
theorem search_normalization_and_fusion_witness :
    ((bmC8.map fun r => r.chunk_id).Nodup ∧
     (vecC8.map fun r => r.chunk_id).Nodup) ∧
    ((∀ r ∈ normalize_scores bmC8, 0 ≤ r.score ∧ r.score ≤ 1) ∧
     (∀ r ∈ normalize_scores vecC8, 0 ≤ r.score ∧ r.score ≤ 1) ∧
     (minScoreOf bmC8 = maxScoreOf bmC8 →
       normalize_scores bmC8 = bmC8.map (fun x =>
         { x with score := if 0 < maxScoreOf bmC8 then 1 else 0 })) ∧
     (minScoreOf vecC8 = maxScoreOf vecC8 →
       normalize_scores vecC8 = vecC8.map (fun x =>
         { x with score := if 0 < maxScoreOf vecC8 then 1 else 0 })) ∧
     (minScoreOf bmC8 ≠ maxScoreOf bmC8 →
       normalize_scores bmC8 = bmC8.map (fun x =>
         { x with score := (x.score - minScoreOf bmC8) /
             (maxScoreOf bmC8 - minScoreOf bmC8) })) ∧
     (minScoreOf vecC8 ≠ maxScoreOf vecC8 →
       normalize_scores vecC8 = vecC8.map (fun x =>
         { x with score := (x.score - minScoreOf vecC8) /
             (maxScoreOf vecC8 - minScoreOf vecC8) })) ∧
     (∀ r ∈ search bmC8 vecC8 5 (1/2) (1/2),
       r.score = (1/2) * scoreOf (normalize_scores bmC8) r.chunk_id +
         (1/2) * scoreOf (normalize_scores vecC8) r.chunk_id) ∧
     (search bmC8 vecC8 5 (1/2) (1/2)).Pairwise
       (fun a b => b.score ≤ a.score)) :=
  ⟨⟨by decide, by decide⟩,
    search_normalization_and_fusion bmC8 vecC8 5 (1/2) (1/2)
      (by decide) (by decide)⟩

end AIArchitect
